import Mathlib

/-!
Shallow embedding of the convex-hmlr component (TypeScript) in Lean 4,
with theorems settling the specification claims about it.

Conventions used throughout:
* A Convex table is a `List` of records in insertion order; `_id` is modelled
  by a `Nat` field `id` equal to the record's insertion index (Convex ids are
  opaque and creation-ordered; the index captures exactly that).
* `Date.now()` and other ambient effects are explicit parameters.
* JavaScript floating-point arithmetic is modelled by `ℚ` (exact rational
  arithmetic); JS `Set` iteration order (insertion order) is modelled by
  first-occurrence deduplication on lists.
-/

namespace FactStore

/-- A row of the `facts` table (src/src/component/hmlr.test.ts, facts module). -/
structure Fact where
  id : Nat
  key : String
  value : String
  category : Option String
  blockId : Nat
  turnId : Option String
  evidenceSnippet : Option String
  supersededBy : Option Nat
  createdAt : Nat
deriving DecidableEq, Repr

/-- The `facts` table in insertion order. -/
abbrev FactTable := List Fact

/-- Arguments of the `store` mutation. -/
structure StoreArgs where
  key : String
  value : String
  category : Option String
  blockId : Nat
  turnId : Option String
  evidenceSnippet : Option String
deriving DecidableEq, Repr

/-- `ctx.db.insert("facts", …)`: append with a fresh id (the current length). -/
def dbInsert (s : FactTable) (key value : String) (category : Option String)
    (blockId : Nat) (turnId evidenceSnippet : Option String) (now : Nat) :
    FactTable × Nat :=
  (s ++ [⟨s.length, key, value, category, blockId, turnId, evidenceSnippet, none, now⟩],
   s.length)

/-- `ctx.db.get(factId)`. -/
def dbGet (s : FactTable) (factId : Nat) : Option Fact :=
  s.find? (fun f => f.id = factId)

/-- `ctx.db.patch(id, { supersededBy: newId })`. -/
def patchSupersededBy (s : FactTable) (targetId newId : Nat) : FactTable :=
  s.map (fun f => if f.id = targetId then { f with supersededBy := some newId } else f)

/-- `query("facts").withIndex("by_key", …).collect()`. -/
def factsWithKey (s : FactTable) (key : String) : List Fact :=
  s.filter (fun f => f.key = key)

/-- The `store` mutation: insert the new fact, then mark every previously
existing non-superseded fact with the same key as superseded by it. -/
def store (s : FactTable) (args : StoreArgs) (now : Nat) : FactTable × Nat :=
  let existingFacts := factsWithKey s args.key
  let ins := dbInsert s args.key args.value args.category args.blockId
      args.turnId args.evidenceSnippet now
  let newFactId := ins.2
  let s2 := existingFacts.foldl
    (fun acc existingFact =>
      if existingFact.supersededBy = none then
        patchSupersededBy acc existingFact.id newFactId
      else acc)
    ins.1
  (s2, newFactId)

/-- The `storeBatch` mutation: `store`'s body once per fact, in order. -/
def storeBatch (s : FactTable) (facts : List StoreArgs) (now : Nat) : FactTable :=
  facts.foldl (fun acc args => (store acc args now).1) s

/-- The `remove` mutation: look the target up; if present, insert a
`[DELETED]` successor row and link the target to it. -/
def remove (s : FactTable) (factId : Nat) (now : Nat) : FactTable :=
  match dbGet s factId with
  | none => s
  | some fact =>
      let ins := dbInsert s fact.key "[DELETED]" fact.category fact.blockId
          none (some "Fact was explicitly deleted") now
      patchSupersededBy ins.1 factId ins.2

/-- The `get` query: all facts with the key, newest first (`order("desc")`
on the creation-ordered index), returning the first non-superseded one. -/
def get (s : FactTable) (key : String) : Option Fact :=
  ((factsWithKey s key).reverse).find? (fun f => f.supersededBy = none)

/-- One Fact Store operation. -/
inductive Op where
  | store (args : StoreArgs) (now : Nat)
  | storeBatch (facts : List StoreArgs) (now : Nat)
  | remove (factId : Nat) (now : Nat)
deriving DecidableEq, Repr

/-- Apply one operation to the table. -/
def applyOp (s : FactTable) : Op → FactTable
  | .store args now => (store s args now).1
  | .storeBatch facts now => storeBatch s facts now
  | .remove factId now => remove s factId now

/-- Run a sequence of operations from a starting table. -/
def runOps (s : FactTable) (ops : List Op) : FactTable :=
  ops.foldl applyOp s

/-- The rows for `key` with `supersededBy = null`. -/
def liveForKey (s : FactTable) (key : String) : List Fact :=
  s.filter (fun f => f.supersededBy = none ∧ f.key = key)

/-- Table well-formedness: the id of each row is its insertion index. -/
def idsOk (s : FactTable) : Prop :=
  s.map Fact.id = List.range s.length

instance : DecidablePred idsOk := fun s => by unfold idsOk; infer_instance

/-- `true` iff every `remove` in the sequence, at its point of execution,
targets a row that is currently non-superseded (the precondition under which
the supersession invariant survives `remove`). -/
def removesHitLive (s : FactTable) : List Op → Bool
  | [] => true
  | op :: ops =>
      (match op with
       | .remove factId _ => (dbGet s factId).all (fun f => f.supersededBy = none)
       | _ => true)
      && removesHitLive (applyOp s op) ops

end FactStore

namespace JsText

/-- JS `toLowerCase()` modelled as the character-wise ASCII case map
(`String.toLower`'s own loop does not reduce in the kernel, so the map is
taken over the character list). -/
def toLowerStr (s : String) : String := String.mk (s.toList.map Char.toLower)

end JsText

namespace Bridge

/-- `status` of a bridge block (src/unnamed/part_002). -/
inductive Status where
  | ACTIVE
  | PAUSED
  | CLOSED
deriving DecidableEq, Repr

/-- A row of the `bridgeBlocks` table. -/
structure Block where
  id : Nat
  dayId : String
  topicLabel : String
  keywords : List String
  summary : Option String
  status : Status
  prevBlockId : Option Nat
  openLoops : List String
  decisionsMade : List String
  turnCount : Nat
  createdAt : Nat
  updatedAt : Nat
deriving DecidableEq, Repr

/-- A row of the `turns` table. -/
structure Turn where
  id : Nat
  blockId : Nat
  turnId : String
  userMessage : String
  aiResponse : String
  keywords : Option (List String)
  affect : Option String
  timestamp : Nat
deriving DecidableEq, Repr

/-- The database state used by the Bridge Block mutations. -/
structure DB where
  blocks : List Block
  turns : List Turn
deriving DecidableEq, Repr

/-- `ctx.db.get(blockId)` on `bridgeBlocks`. -/
def blockGet (db : DB) (blockId : Nat) : Option Block :=
  db.blocks.find? (fun b => b.id = blockId)

/-- `query("turns").withIndex("by_block", …).collect()`. -/
def turnsForBlock (db : DB) (blockId : Nat) : List Turn :=
  db.turns.filter (fun t => t.blockId = blockId)

/-- `create`'s first step: patch every block of status ACTIVE to PAUSED. -/
def pauseActiveBlocks (blocks : List Block) (now : Nat) : List Block :=
  blocks.map (fun b => if b.status = Status.ACTIVE
    then { b with status := Status.PAUSED, updatedAt := now } else b)

/-- The `create` mutation: pause any currently active blocks, then insert the
new block with status ACTIVE. -/
def create (db : DB) (dayId topicLabel : String) (keywords : List String)
    (prevBlockId : Option Nat) (now : Nat) : DB × Nat :=
  let paused := pauseActiveBlocks db.blocks now
  let blockId := paused.length
  ({ db with blocks := paused ++
      [⟨blockId, dayId, topicLabel, keywords, none, Status.ACTIVE, prevBlockId,
        [], [], 0, now, now⟩] },
   blockId)

/-- The `updateStatus` mutation: when activating, pause all other active
blocks first; then patch the target block's status. -/
def updateStatus (db : DB) (blockId : Nat) (status : Status) (now : Nat) : DB :=
  let blocks1 :=
    if status = Status.ACTIVE then
      db.blocks.map (fun b =>
        if b.status = Status.ACTIVE ∧ b.id ≠ blockId
        then { b with status := Status.PAUSED, updatedAt := now } else b)
    else db.blocks
  { db with blocks := blocks1.map (fun b =>
      if b.id = blockId then { b with status := status, updatedAt := now } else b) }

/-- JavaScript string falsiness (`!summary`): undefined or the empty string. -/
def strFalsy : Option String → Bool
  | none => true
  | some s => s = ""

/-- The `pauseWithSummary` mutation: set the block to PAUSED and, when its
summary is missing, synthesize a heuristic one from its first/last turns. -/
def pauseWithSummary (db : DB) (blockId : Nat) (now : Nat) : DB :=
  match blockGet db blockId with
  | none => db
  | some block =>
      let turns := turnsForBlock db blockId
      let summary1 : Option String :=
        if strFalsy block.summary ∧ turns.length > 0 then
          match turns.head?, turns.getLast? with
          | some firstTurn, some lastTurn =>
              if turns.length = 1 then
                some ("Discussion about: " ++ firstTurn.userMessage.take 100 ++ "...")
              else
                some (toString turns.length ++ " exchanges. Started with: \""
                  ++ firstTurn.userMessage.take 50 ++ "...\" Ended with: \""
                  ++ lastTurn.userMessage.take 50 ++ "...\"")
          | _, _ => block.summary
        else block.summary
      let finalSummary :=
        match summary1 with
        | some s => s
        | none => "Block with " ++ toString block.turnCount ++ " turns"
      { db with blocks := db.blocks.map (fun b =>
          if b.id = blockId then
            { b with
              status := Status.PAUSED
              summary := some finalSummary
              updatedAt := now }
          else b) }

/-- The `updateMetadata` mutation: each supplied field overwrites the stored
one (`summary`, `keywords`, `openLoops`, `decisionsMade`); omitted fields are
left alone. -/
def updateMetadata (db : DB) (blockId : Nat) (summary : Option String)
    (keywords openLoops decisionsMade : Option (List String)) (now : Nat) : DB :=
  { db with blocks := db.blocks.map (fun b =>
      if b.id = blockId then
        { b with
          updatedAt := now,
          summary := match summary with | some s => some s | none => b.summary,
          keywords := keywords.getD b.keywords,
          openLoops := openLoops.getD b.openLoops,
          decisionsMade := decisionsMade.getD b.decisionsMade }
      else b) }

/-- JS `Set.add` over a list in insertion order: append each element of `xs`
that is not already present. -/
def setAddAll (acc : List String) (xs : List String) : List String :=
  xs.foldl (fun acc x => if x ∈ acc then acc else acc ++ [x]) acc

/-- `new Set(xs)` materialised in insertion order (first-occurrence dedup). -/
def jsSetOfList (xs : List String) : List String := setAddAll [] xs

/-- The `metadata` argument of `updateMetadataFromResponse`. -/
structure ResponseMetadata where
  affect : Option String
  topics : Option (List String)
  keywords : Option (List String)
  summary : Option String
  openLoops : Option (List String)
  decisionsMade : Option (List String)
deriving DecidableEq, Repr

/-- The `updateMetadataFromResponse` mutation: merge `keywords` (and lowercased
`topics`), `openLoops` and `decisionsMade` into the block's lists as JS sets,
sliced to 20/10/10; a non-empty `summary` overwrites. -/
def updateMetadataFromResponse (db : DB) (blockId : Nat) (m : ResponseMetadata)
    (now : Nat) : DB :=
  match blockGet db blockId with
  | none => db
  | some block =>
      let kw1 : Option (List String) :=
        match m.keywords with
        | some ks => some ((setAddAll (jsSetOfList block.keywords) ks).take 20)
        | none => none
      let kw2 : Option (List String) :=
        match m.topics with
        | some ts => some ((setAddAll (jsSetOfList (kw1.getD block.keywords))
            (ts.map JsText.toLowerStr)).take 20)
        | none => kw1
      let summaryUpd : Option String :=
        match m.summary with
        | some s => if s = "" then none else some s
        | none => none
      let loopsUpd : Option (List String) :=
        match m.openLoops with
        | some ls => some ((setAddAll (jsSetOfList block.openLoops) ls).take 10)
        | none => none
      let decsUpd : Option (List String) :=
        match m.decisionsMade with
        | some ds => some ((setAddAll (jsSetOfList block.decisionsMade) ds).take 10)
        | none => none
      { db with blocks := db.blocks.map (fun b =>
          if b.id = blockId then
            { b with
              updatedAt := now,
              keywords := kw2.getD b.keywords,
              summary := match summaryUpd with | some s => some s | none => b.summary,
              openLoops := loopsUpd.getD b.openLoops,
              decisionsMade := decsUpd.getD b.decisionsMade }
          else b) }

/-- One Bridge Block operation (the three named in the invariant claim). -/
inductive BOp where
  | create (dayId topicLabel : String) (keywords : List String)
      (prevBlockId : Option Nat) (now : Nat)
  | updateStatus (blockId : Nat) (status : Status) (now : Nat)
  | pauseWithSummary (blockId : Nat) (now : Nat)
deriving DecidableEq, Repr

/-- Apply one operation. -/
def applyBOp (db : DB) : BOp → DB
  | .create d t k p n => (create db d t k p n).1
  | .updateStatus b st n => updateStatus db b st n
  | .pauseWithSummary b n => pauseWithSummary db b n

/-- Run a sequence of operations. -/
def runBOps (db : DB) (ops : List BOp) : DB :=
  ops.foldl applyBOp db

/-- Number of blocks with status ACTIVE. -/
def activeCount (blocks : List Block) : Nat :=
  (blocks.filter (fun b => b.status = Status.ACTIVE)).length

/-- Number of blocks of a given day with status ACTIVE. -/
def activeCountForDay (blocks : List Block) (dayId : String) : Nat :=
  (blocks.filter (fun b => b.status = Status.ACTIVE ∧ b.dayId = dayId)).length

/-- Block-table well-formedness: ids are the insertion indices. -/
def blockIdsOk (blocks : List Block) : Prop :=
  blocks.map Block.id = List.range blocks.length

end Bridge

namespace Evict

/-- The slice of a `bridgeBlocks` row the eviction manager reads
(src/src/component/adaptive/index.ts, eviction module). -/
structure EBlock where
  id : Nat
  dayId : String
  topicLabel : String
deriving DecidableEq, Repr

/-- The slice of a `turns` row the eviction manager reads. -/
structure ETurn where
  id : Nat
  blockId : Nat
  turnId : String
  userMessage : String
  aiResponse : String
  timestamp : Int
deriving DecidableEq, Repr

/-- A row of the `topicAffinity` table. -/
structure Affinity where
  id : Nat
  topic : String
  evictionCount : Nat
  totalTimeInWindow : Int
  avgTimeInWindow : ℚ
deriving DecidableEq, Repr

/-- The database state read and written by the eviction manager. -/
structure EDB where
  blocks : List EBlock
  turns : List ETurn
  affinity : List Affinity
deriving DecidableEq, Repr

/-- `TIME_THRESHOLD_HOURS * 60 * 60 * 1000`. -/
def timeThresholdMs : Int := 24 * 60 * 60 * 1000

/-- `MAX_TIER2_TOKENS`. -/
def maxTier2Tokens : Nat := 5000

/-- `MAX_TIER2_TURNS`. -/
def maxTier2Turns : Nat := 30

/-- `updateTopicAffinityInternal`: upsert the row keyed by the lowercased
topic, adding the time-in-window and recomputing the average. -/
def updateTopicAffinity (aff : List Affinity) (topic : String)
    (addedTimestamp evictedTimestamp : Int) : List Affinity :=
  let topicLower := JsText.toLowerStr topic
  let timeInWindow := evictedTimestamp - addedTimestamp
  match aff.find? (fun a => a.topic = topicLower) with
  | some existing =>
      aff.map (fun a =>
        if a.id = existing.id then
          { a with
            evictionCount := existing.evictionCount + 1
            totalTimeInWindow := existing.totalTimeInWindow + timeInWindow
            avgTimeInWindow := ((existing.totalTimeInWindow + timeInWindow : ℚ))
              / ((existing.evictionCount + 1 : ℚ)) }
        else a)
  | none =>
      aff ++ [⟨aff.length, topicLower, 1, timeInWindow, (timeInWindow : ℚ)⟩]

/-- `query("bridgeBlocks").withIndex("by_day", …).collect()`. -/
def dayBlocks (db : EDB) (dayId : String) : List EBlock :=
  db.blocks.filter (fun b => b.dayId = dayId)

/-- `query("turns").withIndex("by_block", …).collect()`. -/
def blockTurns (db : EDB) (blockId : Nat) : List ETurn :=
  db.turns.filter (fun t => t.blockId = blockId)

/-- `tokenEstimate = Math.ceil((userMessage.length + aiResponse.length) / 4)`. -/
def tokenEstimate (t : ETurn) : Nat :=
  (t.userMessage.length + t.aiResponse.length + 3) / 4

/-- `evictByTimeInternal`: walk the day's turns; every turn older than the
threshold is recorded as evicted and updates topic affinity.  The turn rows
themselves are not modified. -/
def evictByTimeInternal (db : EDB) (dayId : String) (now : Int) :
    List Affinity × List String :=
  (dayBlocks db dayId).foldl
    (fun acc block =>
      (blockTurns db block.id).foldl
        (fun acc2 turn =>
          if now - turn.timestamp > timeThresholdMs then
            (updateTopicAffinity acc2.1 block.topicLabel turn.timestamp now,
             acc2.2 ++ [turn.turnId])
          else acc2)
        acc)
    (db.affinity, [])

/-- The per-turn record `evictBySpaceInternal` builds. -/
structure SpaceTurn where
  turnId : String
  topicLabel : String
  timestamp : Int
  tokenEstimate : Nat
deriving DecidableEq, Repr

/-- Gather the day's turns in block order with token estimates. -/
def collectDayTurns (db : EDB) (dayId : String) : List SpaceTurn :=
  (dayBlocks db dayId).foldr
    (fun block rest =>
      (blockTurns db block.id).map
        (fun t => ⟨t.turnId, block.topicLabel, t.timestamp, tokenEstimate t⟩) ++ rest)
    []

/-- Stable insertion by ascending timestamp (JS `Array.prototype.sort` with
`a.timestamp - b.timestamp` is stable). -/
def insertByTs (t : SpaceTurn) : List SpaceTurn → List SpaceTurn
  | [] => [t]
  | x :: xs => if t.timestamp ≤ x.timestamp then t :: x :: xs else x :: insertByTs t xs

/-- Stable sort by ascending timestamp. -/
def sortByTs (l : List SpaceTurn) : List SpaceTurn :=
  l.foldr insertByTs []

/-- `evictBySpaceInternal`: sort the day's turns by timestamp and record the
turn-count excess over `MAX_TIER2_TURNS` as evicted (the token bound is not
consulted, and the turn rows are not modified). -/
def evictBySpaceInternal (db : EDB) (dayId : String) (now : Int) :
    List Affinity × List String :=
  let maxTurns := maxTier2Turns
  let allTurns := sortByTs (collectDayTurns db dayId)
  let excess := allTurns.length - maxTurns
  if excess > 0 then
    let evicted := allTurns.take excess
    (evicted.foldl
      (fun acc t => updateTopicAffinity acc t.topicLabel t.timestamp now)
      db.affinity,
     evicted.map (fun t => t.turnId))
  else (db.affinity, [])

/-- Return shape of `checkAndEvict`. -/
structure EvictResult where
  timeEvicted : Nat
  spaceEvicted : Nat
  totalEvicted : Nat
  evictedTurnIds : List String
deriving DecidableEq, Repr

/-- `checkAndEvict`: run time-based then space-based eviction accounting and
return the deduplicated union of the collected turn ids. -/
def checkAndEvict (db : EDB) (dayId : String) (now : Int) : EDB × EvictResult :=
  let timeResult := evictByTimeInternal db dayId now
  let db1 : EDB := { db with affinity := timeResult.1 }
  let spaceResult := evictBySpaceInternal db1 dayId now
  let db2 : EDB := { db1 with affinity := spaceResult.1 }
  let allEvicted := Bridge.jsSetOfList (timeResult.2 ++ spaceResult.2)
  (db2, ⟨timeResult.2.length, spaceResult.2.length, allEvicted.length, allEvicted⟩)

/-- Number of stored turns of the day. -/
def dayTurnCount (db : EDB) (dayId : String) : Nat :=
  (collectDayTurns db dayId).length

/-- Sum of the day's token estimates. -/
def daySumTokens (db : EDB) (dayId : String) : Nat :=
  ((collectDayTurns db dayId).map SpaceTurn.tokenEstimate).sum

end Evict

namespace Hydrator

/-- Return shape of `allocateTokenBudget`
(src/src/component/retrieval/hydrator.ts). -/
structure BudgetAllocation where
  system : ℚ
  tasks : ℚ
  bridgeBlock : ℚ
  memories : ℚ
  facts : ℚ
  profile : ℚ
  total : ℚ
deriving DecidableEq, Repr

/-- `Math.floor` on the rational model of a JS number. -/
def jsFloor (q : ℚ) : ℚ := (⌊q⌋ : ℚ)

/-- `allocateTokenBudget(maxTokens, systemTokens, taskTokens)`: fixed system
and task budgets, then proportional floors of the remainder. -/
def allocateTokenBudget (maxTokens systemTokens taskTokens : ℚ) : BudgetAllocation :=
  let remainingAfterFixed := maxTokens - systemTokens - taskTokens
  let bridgeBlock := jsFloor (remainingAfterFixed * (0.50 : ℚ))
  let memories := jsFloor (remainingAfterFixed * (0.30 : ℚ))
  let facts := jsFloor (remainingAfterFixed * (0.10 : ℚ))
  let profile := jsFloor (remainingAfterFixed * (0.10 : ℚ))
  { system := systemTokens
    tasks := taskTokens
    bridgeBlock := bridgeBlock
    memories := memories
    facts := facts
    profile := profile
    total := systemTokens + taskTokens + bridgeBlock + memories + facts + profile }

end Hydrator

namespace JsText

/-- JS regex `\w`: ASCII letters, digits, or underscore. -/
def isWordChar (c : Char) : Bool := c.isAlphanum || c = '_'

/-- `pat` matches at the head of `s` (character-by-character). -/
def startsWith : List Char → List Char → Bool
  | [], _ => true
  | _ :: _, [] => false
  | p :: ps, c :: cs => (p = c) && startsWith ps cs

/-- After a match of `pat` at the head of `s`, the following character must
not be a word character (regex `\b` on the right edge of a word pattern). -/
def boundaryAfter (pat s : List Char) : Bool :=
  match s.drop pat.length with
  | [] => true
  | c :: _ => !(isWordChar c)

/-- Scan for a `\b pat \b` match: `prevWord` carries whether the character
before the current position is a word character. -/
def findBounded (pat : List Char) : List Char → Bool → Bool
  | [], _ => false
  | c :: cs, prevWord =>
      (!prevWord && startsWith pat (c :: cs) && boundaryAfter pat (c :: cs))
      || findBounded pat cs (isWordChar c)

/-- Case-insensitive `\b pat \b` test of a word-delimited pattern. -/
def testWordPat (pat : String) (s : String) : Bool :=
  findBounded (toLowerStr pat).toList (toLowerStr s).toList false

/-- Maximal runs of word characters — the non-empty tokens of
`s.split(/\W+/)` (the splits' possible empty fragments are always discarded
by the length filters that follow them in the source). -/
def wordRuns : List Char → List (List Char)
  | [] => []
  | c :: cs =>
      if isWordChar c then
        (c :: cs.takeWhile isWordChar) :: wordRuns (cs.dropWhile isWordChar)
      else
        wordRuns cs
termination_by s => s.length
decreasing_by
  · simp only [List.length_cons]
    exact Nat.lt_succ_of_le (List.dropWhile_sublist _).length_le
  · simp

/-- JS `Set` of a list of tokens, materialised in insertion order. -/
def dedupTokens (xs : List (List Char)) : List (List Char) :=
  xs.foldl (fun acc x => if x ∈ acc then acc else acc ++ [x]) []

end JsText

namespace Adaptive

open JsText

/-- `CompressionLevel` (src/src/component/adaptive/index.ts). -/
inductive CompressionLevel where
  | NO_COMPRESSION
  | COMPRESS_PARTIAL
  | COMPRESS_ALL
deriving DecidableEq, Repr

/-- `CompressionDecision`. -/
structure CompressionDecision where
  level : CompressionLevel
  reason : String
  semanticDistance : ℚ
  timeGapHours : ℚ
  hasExplicitReference : Bool
  keepVerbatimCount : Nat
deriving DecidableEq, Repr

/-- `VERY_DIFFERENT_THRESHOLD`. -/
def veryDifferentThreshold : ℚ := 0.8

/-- `SOMEWHAT_DIFFERENT_THRESHOLD`. -/
def somewhatDifferentThreshold : ℚ := 0.6

/-- `LONG_GAP_HOURS`. -/
def longGapHours : ℚ := 12

/-- `MAX_VERBATIM_HARD_LIMIT`. -/
def maxVerbatimHardLimit : Nat := 15

/-- `COMPRESS_ALL_KEEP`. -/
def compressAllKeep : Nat := 5

/-- `COMPRESS_PARTIAL_KEEP`. -/
def compressPartialKeep : Nat := 10

/-- `REFERENCE_PATTERNS` (all case-insensitive, `\b`-delimited). -/
def referencePatterns : List String :=
  ["we discussed", "you mentioned", "you said", "as i said", "earlier you",
   "previously", "going back to"]

/-- `detectExplicitReference`. -/
def detectExplicitReference (query : String) : Bool :=
  referencePatterns.any (fun pattern => testWordPat pattern query)

/-- `calculateSimpleDistance`: Jaccard-style word distance over the content
words (length > 3) of the two query strings. -/
def calculateSimpleDistance (query1 query2 : String) : ℚ :=
  let words1 := dedupTokens ((wordRuns (toLowerStr query1).toList).filter
    (fun w => w.length > 3))
  let words2 := dedupTokens ((wordRuns (toLowerStr query2).toList).filter
    (fun w => w.length > 3))
  if words1.length = 0 ∨ words2.length = 0 then 1/2
  else
    let intersection := words1.filter (fun x => x ∈ words2)
    let union := dedupTokens (words1 ++ words2)
    1 - (intersection.length : ℚ) / (union.length : ℚ)

/-- `recentQueries.slice(-3).join(" ")`. -/
def combineRecent (recentQueries : List String) : String :=
  String.intercalate " " (recentQueries.drop (recentQueries.length - 3))

/-- `decideCompression` (with `Date.now()` passed explicitly as `now`). -/
def decideCompression (currentQuery : String) (recentQueries : List String)
    (lastTurnTimestamp now : ℚ) : CompressionDecision :=
  if recentQueries.length = 0 then
    ⟨CompressionLevel.NO_COMPRESSION, "No recent turns to compress", 0, 0, false, 0⟩
  else if detectExplicitReference currentQuery then
    ⟨CompressionLevel.NO_COMPRESSION,
     "Explicit reference to previous conversation detected", 0, 0, true,
     recentQueries.length⟩
  else
    let semanticDistance := calculateSimpleDistance currentQuery
      (combineRecent recentQueries)
    let timeGapHours := (now - lastTurnTimestamp) / (1000 * 60 * 60)
    let res : CompressionLevel × String × Nat :=
      if semanticDistance > veryDifferentThreshold then
        if timeGapHours > longGapHours then
          (CompressionLevel.COMPRESS_ALL, "Very different topic + long time gap",
           compressAllKeep)
        else
          (CompressionLevel.COMPRESS_PARTIAL, "Very different topic",
           compressPartialKeep)
      else if semanticDistance > somewhatDifferentThreshold then
        if timeGapHours > longGapHours then
          (CompressionLevel.COMPRESS_PARTIAL,
           "Somewhat different topic + long time gap", compressPartialKeep)
        else
          (CompressionLevel.NO_COMPRESSION, "Similar enough topic and recent",
           recentQueries.length)
      else
        (CompressionLevel.NO_COMPRESSION, "Similar topic", recentQueries.length)
    ⟨res.1, res.2.1, semanticDistance, timeGapHours, false,
     min res.2.2 maxVerbatimHardLimit⟩

/-- `cosineSimilarity`, with `Math.sqrt` as an explicit parameter (the one
external numeric primitive the function uses). -/
def cosineSimilarity (sqrt : ℚ → ℚ) (vec1 vec2 : List ℚ) : ℚ :=
  if vec1.length ≠ vec2.length then 0
  else
    let dotProduct := ((vec1.zip vec2).map (fun p => p.1 * p.2)).sum
    let norm1 := (vec1.map (fun x => x * x)).sum
    let norm2 := (vec2.map (fun x => x * x)).sum
    if norm1 = 0 ∨ norm2 = 0 then 0
    else dotProduct / (sqrt norm1 * sqrt norm2)

end Adaptive

namespace Tabula

open JsText

/-- `TopicShiftResult` (src/src/component/lineage/tracker.ts, Tabula Rasa
module). -/
structure TopicShiftResult where
  isShift : Bool
  reason : String
  newTopicLabel : Option String
  confidence : ℚ
deriving DecidableEq, Repr

/-- `SHIFT_THRESHOLD`. -/
def shiftThreshold : ℚ := 0.7

/-- Case-insensitive character comparison (the `/i` regex flag). -/
def ciEq (a b : Char) : Bool := a.toLower = b.toLower

/-- `pat` matches at the head of `s`, case-insensitively. -/
def startsWithCI : List Char → List Char → Bool
  | [], _ => true
  | _ :: _, [] => false
  | p :: ps, c :: cs => ciEq p c && startsWithCI ps cs

/-- `pat` occurs somewhere in `s`, case-insensitively. -/
def containsCI (pat : List Char) : List Char → Bool
  | [] => startsWithCI pat []
  | c :: cs => startsWithCI pat (c :: cs) || containsCI pat cs

/-- JS `\s` (whitespace). -/
def isSpaceChar (c : Char) : Bool := c.isWhitespace

/-- JS `String.prototype.trim()` on a character list. -/
def trimChars (s : List Char) : List Char :=
  ((s.dropWhile isSpaceChar).reverse.dropWhile isSpaceChar).reverse

/-- Lazy `(.+?)` capture: the shortest non-empty newline-free middle after
which `suf` matches, scanning from the current position. -/
def midAt (suf : List Char) : List Char → Option (List Char)
  | [] => none
  | c :: cs =>
      if c = '\n' then none
      else if startsWithCI suf cs then some [c]
      else (midAt suf cs).map (fun cap => c :: cap)

/-- Leftmost match of `pre (.+?) suf` (dot excludes newline); returns the
capture. -/
def matchMid (pre suf : List Char) : List Char → Option (List Char)
  | [] => none
  | c :: cs =>
      if startsWithCI pre (c :: cs) then
        match midAt suf ((c :: cs).drop pre.length) with
        | some cap => some cap
        | none => matchMid pre suf cs
      else matchMid pre suf cs

/-- Leftmost match of `pre (.+)` (greedy to end of line); returns the
capture. -/
def matchTail (pre : List Char) : List Char → Option (List Char)
  | [] => none
  | c :: cs =>
      if startsWithCI pre (c :: cs) then
        match (c :: cs).drop pre.length with
        | [] => matchTail pre cs
        | r :: rest =>
            if r = '\n' then matchTail pre cs
            else some ((r :: rest).takeWhile (fun x => x ≠ '\n'))
      else matchTail pre cs

/-- JS `[:\s]`. -/
def isColonWs (c : Char) : Bool := c = ':' || c.isWhitespace

/-- Backtracking split for `[:\s]+(.+)`: the largest `j ≥ 1` such that after
consuming `j` class characters a newline-free character remains; returns the
greedy capture. -/
def bestSplit (rest : List Char) : Nat → Option (List Char)
  | 0 => none
  | j + 1 =>
      match rest.drop (j + 1) with
      | [] => bestSplit rest j
      | r :: more =>
          if r ≠ '\n' then some ((r :: more).takeWhile (fun x => x ≠ '\n'))
          else bestSplit rest j

/-- Leftmost match of `pre [:\s]+ (.+)`; returns the capture. -/
def matchColonWs (pre : List Char) : List Char → Option (List Char)
  | [] => none
  | c :: cs =>
      if startsWithCI pre (c :: cs) then
        match bestSplit ((c :: cs).drop pre.length)
            (((c :: cs).drop pre.length).takeWhile isColonWs).length with
        | some cap => some cap
        | none => matchColonWs pre cs
      else matchColonWs pre cs

/-- The pattern head `let's talk about ` (apostrophe written by code point to
stay printable everywhere). -/
def letsTalkPre : List Char :=
  "let".toList ++ [Char.ofNat 39] ++ "s talk about ".toList

/-- `detectExplicitShift`: the six SHIFT_PHRASES, tried in order; `some`
carries the trimmed capture. -/
def detectExplicitShift (query : String) : Option String :=
  let s := query.toList
  let raw :=
    matchMid letsTalkPre " instead".toList s
    <|> matchTail "changing topics to ".toList s
    <|> matchTail "changing topic to ".toList s
    <|> matchTail "moving on to ".toList s
    <|> matchColonWs "new topic".toList s
    <|> matchTail "can we discuss ".toList s
    <|> matchTail "switching to ".toList s
  raw.map (fun cap => String.mk (trimChars cap))

/-- `CONTINUATION_PHRASES`: anchored starters, then unanchored phrase
alternations. -/
def detectContinuation (query : String) : Bool :=
  let s := query.toList
  ((["so", "and", "but", "also", "additionally", "furthermore"].any
      (fun w => startsWithCI w.toList s))
  || (["as i said", "as i mentioned", "as i discussed",
       "as we said", "as we mentioned", "as we discussed"].any
        (fun w => containsCI w.toList s))
  || containsCI "going back to".toList s
  || (["regarding that", "regarding this", "regarding the"].any
        (fun w => containsCI w.toList s)))

/-- The stop-word set of `extractTopicsFromQuery`. -/
def tabulaStopWords : List String :=
  ["the", "a", "an", "is", "are", "was", "were", "and", "or", "but",
   "in", "on", "at", "to", "for", "of", "with", "by", "from", "i",
   "you", "we", "they", "it", "this", "that", "what", "how", "why",
   "when", "where", "can", "could", "would", "should", "do", "does",
   "did", "have", "has", "had", "be", "been", "being", "my", "your",
   "me", "about", "help", "want", "need", "please", "tell"]

/-- `extractTopicsFromQuery`: lowercase, non-word → space, split, drop short
and stop words, first 5. -/
def extractTopicsFromQuery (query : String) : List String :=
  (((wordRuns (toLowerStr query).toList).map (fun w => String.mk w)).filter
    (fun w => w.length > 2 && !(tabulaStopWords.contains w))).take 5

/-- `topics[0] || fallback`. -/
def firstTopicLabelD (query : String) (fallback : String) : String :=
  match extractTopicsFromQuery query with
  | t :: _ => t
  | [] => fallback

/-- The Jaccard similarity `checkForShift` computes: extracted query topics
vs the lowercased block keywords, both as JS sets. -/
def topicSimilarity (query : String) (activeBlockKeywords : List String) : ℚ :=
  let queryTopics := extractTopicsFromQuery query
  let querySet := Bridge.jsSetOfList queryTopics
  let blockSet := Bridge.jsSetOfList (activeBlockKeywords.map toLowerStr)
  let matchCount := (querySet.filter (fun t => blockSet.contains t)).length
  let union := Bridge.jsSetOfList (querySet ++ blockSet)
  if union.length > 0 then (matchCount : ℚ) / (union.length : ℚ) else 0

/-- `(x).toFixed(0)`: round half away from zero (for the non-negative
percentages used here, `⌊x + 1/2⌋`), printed in decimal. -/
def toFixed0 (q : ℚ) : String := toString (Rat.floor (q + 1/2))

/-- `checkForShift`. -/
def checkForShift (query : String) (activeBlockKeywords : List String) :
    TopicShiftResult :=
  if activeBlockKeywords.length = 0 then
    ⟨true, "No active topic - starting new conversation",
     some (firstTopicLabelD query "General Conversation"), 1⟩
  else
    match detectExplicitShift query with
    | some topic =>
        ⟨true, "Explicit topic change detected",
         some (if topic = "" then "New Topic" else topic), 1⟩
    | none =>
        if detectContinuation query then
          ⟨false, "Continuation phrase detected", none, 1/10⟩
        else
          let similarity := topicSimilarity query activeBlockKeywords
          let shiftConfidence := 1 - similarity
          if shiftConfidence > shiftThreshold then
            ⟨true,
             "Low topic similarity (" ++ toFixed0 (similarity * 100) ++ "%)",
             some (firstTopicLabelD query "New Topic"), shiftConfidence⟩
          else
            ⟨false,
             "Topics similar (" ++ toFixed0 (similarity * 100) ++ "% match)",
             none, 1 - shiftConfidence⟩

end Tabula

namespace Chunking

open JsText

/-- JS `\s` for the chunker. -/
def isWS (c : Char) : Bool := c.isWhitespace

/-- Index of the last `'\n'` in a list, if any. -/
def lastNl : List Char → Option Nat
  | [] => none
  | c :: cs =>
      match lastNl cs with
      | some j => some (j + 1)
      | none => if c = '\n' then some 0 else none

/-- Raw split on the regex `\n\s*\n` (leftmost match, greedy `\s*`): a
separator starts at a `'\n'` whose following whitespace run contains another
`'\n'`, and extends to the last `'\n'` of that run. -/
def splitParaAux (cur : List Char) : List Char → List (List Char)
  | [] => [cur.reverse]
  | c :: cs =>
      if c = '\n' then
        match lastNl (cs.takeWhile isWS) with
        | some j => cur.reverse :: splitParaAux [] (cs.drop (j + 1))
        | none => splitParaAux (c :: cur) cs
      else splitParaAux (c :: cur) cs
termination_by s => s.length
decreasing_by
  · simp only [List.length_cons]
    refine Nat.lt_succ_of_le ?_
    rw [List.length_drop]
    exact Nat.sub_le _ _
  · simp
  · simp

/-- `splitIntoParagraphs`: split on blank lines, trim, drop empties; if no
paragraph survives but the trimmed text is non-empty, the whole trimmed text
is one paragraph. -/
def splitIntoParagraphs (s : List Char) : List (List Char) :=
  let paragraphs := ((splitParaAux [] s).map Tabula.trimChars).filter (fun p => p ≠ [])
  if paragraphs = [] ∧ Tabula.trimChars s ≠ [] then [Tabula.trimChars s]
  else paragraphs

/-- Sentence terminators `[.!?]`. -/
def isTerm (c : Char) : Bool := c = '.' || c = '!' || c = '?'

/-- Raw split on `(?<=[.!?])\s+`: a separator is a maximal non-empty
whitespace run immediately after a terminator (which stays with the left
piece). -/
def splitSentAux (cur : List Char) : List Char → List (List Char)
  | [] => [cur.reverse]
  | c :: cs =>
      if isTerm c ∧ cs.takeWhile isWS ≠ [] then
        (c :: cur).reverse :: splitSentAux [] (cs.dropWhile isWS)
      else splitSentAux (c :: cur) cs
termination_by s => s.length
decreasing_by
  · simp only [List.length_cons]
    exact Nat.lt_succ_of_le (List.dropWhile_sublist _).length_le
  · simp

/-- `splitIntoSentences`: split, trim, drop empties. -/
def splitIntoSentences (s : List Char) : List (List Char) :=
  ((splitSentAux [] s).map Tabula.trimChars).filter (fun p => p ≠ [])

/-- The chunker's `STOP_WORDS`. -/
def chunkStopWords : List String :=
  ["the", "a", "an", "is", "are", "was", "were", "and", "or", "but",
   "in", "on", "at", "to", "for", "of", "with", "by", "from", "as",
   "this", "that", "these", "those", "it", "its", "be", "been", "being",
   "have", "has", "had", "do", "does", "did", "will", "would", "should",
   "could", "may", "might", "can", "my", "your", "his", "her", "their",
   "our", "i", "you", "he", "she", "we", "they", "what", "which", "who",
   "when", "where", "why", "how", "all", "each", "every", "both", "few",
   "more", "most", "other", "some", "such", "no", "nor", "not", "only"]

/-- `extractKeywords`: lowercase, non-word → space, split, keep words longer
than 2 that are not stop words, first-occurrence dedup, first 20. -/
def extractKeywords (text : String) : List String :=
  (Bridge.jsSetOfList
    (((wordRuns (toLowerStr text).toList).map (fun w => String.mk w)).filter
      (fun w => w.length > 2 && !(chunkStopWords.contains w)))).take 20

/-- `estimateTokenCount = Math.ceil(text.length / 4)`. -/
def estimateTokenCount (text : String) : Nat :=
  (text.length + 3) / 4

/-- `chunkType`. -/
inductive ChunkType where
  | sentence
  | paragraph
deriving DecidableEq, Repr

/-- A chunk record. -/
structure Chunk where
  chunkId : String
  chunkType : ChunkType
  textVerbatim : String
  lexicalFilters : List String
  parentChunkId : Option String
  turnId : String
  tokenCount : Nat
deriving DecidableEq, Repr

/-- `generateChunkId` (`Date.now()` and the random nonce are parameters). -/
def generateChunkId (chunkType : ChunkType) (index : Nat) (ts : Nat)
    (nonce : String) : String :=
  (match chunkType with
   | ChunkType.sentence => "sent"
   | ChunkType.paragraph => "para")
  ++ "_" ++ toString ts ++ "_" ++ toString index ++ "_" ++ nonce

/-- The sentence chunks of one paragraph, with the running global sentence
index. -/
def sentenceChunks (turnId paragraphId : String) (ts : Nat)
    (nonce : ChunkType → Nat → String) :
    List (List Char) → Nat → List Chunk
  | [], _ => []
  | st :: sts, sIndex =>
      ⟨generateChunkId ChunkType.sentence sIndex ts (nonce ChunkType.sentence sIndex),
       ChunkType.sentence, String.mk st, extractKeywords (String.mk st),
       some paragraphId, turnId, estimateTokenCount (String.mk st)⟩
      :: sentenceChunks turnId paragraphId ts nonce sts (sIndex + 1)

/-- The paragraph loop of `chunkText`. -/
def chunkPara (turnId : String) (ts : Nat) (nonce : ChunkType → Nat → String) :
    List (List Char) → Nat → Nat → List Chunk
  | [], _, _ => []
  | p :: ps, pIndex, sIndex =>
      let paragraphId := generateChunkId ChunkType.paragraph pIndex ts
        (nonce ChunkType.paragraph pIndex)
      let sentenceTexts := splitIntoSentences p
      ⟨paragraphId, ChunkType.paragraph, String.mk p, extractKeywords (String.mk p),
       none, turnId, estimateTokenCount (String.mk p)⟩
      :: (sentenceChunks turnId paragraphId ts nonce sentenceTexts sIndex
          ++ chunkPara turnId ts nonce ps (pIndex + 1) (sIndex + sentenceTexts.length))

/-- `chunkText` (ids parameterised by the ambient timestamp and nonce). -/
def chunkText (text turnId : String) (ts : Nat)
    (nonce : ChunkType → Nat → String) : List Chunk :=
  chunkPara turnId ts nonce (splitIntoParagraphs text.toList) 0 0

/-- Join pieces with a separator (`Array.prototype.join`). -/
def joinSep (sep : List Char) : List (List Char) → List Char
  | [] => []
  | [p] => p
  | p :: q :: ps => p ++ sep ++ joinSep sep (q :: ps)

/-- The blank-line separator used to state the paragraph round trip. -/
def blankSep : List Char := ['\n', '\n']

/-- Strip trailing whitespace (for the claim's literal "up to trailing
whitespace" reading). -/
def rstrip (s : List Char) : List Char :=
  (s.reverse.dropWhile isWS).reverse

/-- Whitespace-normalised view of a text: its maximal whitespace-free tokens
in order.  Two texts are equal up to whitespace normalisation iff their
`wsTokens` agree. -/
def wsTokensAux (cur : List Char) : List Char → List (List Char)
  | [] => if cur = [] then [] else [cur.reverse]
  | c :: cs =>
      if isWS c then
        (if cur = [] then wsTokensAux [] cs else cur.reverse :: wsTokensAux [] cs)
      else wsTokensAux (c :: cur) cs

/-- The whitespace-separated tokens of a text. -/
def wsTokens (s : List Char) : List (List Char) := wsTokensAux [] s

end Chunking

/-! ### Theorems: Fact Store (C1, C2) -/

namespace FactStore

lemma mem_eq_of_length_le_one {α : Type} {l : List α} (h : l.length ≤ 1) {a b : α}
    (ha : a ∈ l) (hb : b ∈ l) : a = b := by
  match l with
  | [] => cases ha
  | [x] => rw [List.mem_singleton.mp ha, List.mem_singleton.mp hb]
  | x :: y :: t => simp at h

lemma idsOk_inj {s : FactTable} (h : idsOk s) :
    ∀ f ∈ s, ∀ g ∈ s, f.id = g.id → f = g := by
  have hnd : (s.map Fact.id).Nodup := by rw [h]; exact List.nodup_range _
  intro f hf g hg hfg
  exact List.inj_on_of_nodup_map hnd hf hg hfg

lemma mem_id_lt {s : FactTable} (h : idsOk s) {f : Fact} (hf : f ∈ s) :
    f.id < s.length := by
  have hm : f.id ∈ s.map Fact.id := List.mem_map_of_mem _ hf
  rw [h] at hm
  exact List.mem_range.mp hm

lemma dbGet_mem {s : FactTable} {i : Nat} {f : Fact} (h : dbGet s i = some f) :
    f ∈ s ∧ f.id = i := by
  refine ⟨List.mem_of_find?_eq_some h, ?_⟩
  have := List.find?_some h
  simpa using this

lemma dbGet_eq_some {s : FactTable} (h : idsOk s) {f : Fact} (hf : f ∈ s) :
    dbGet s f.id = some f := by
  cases hg : dbGet s f.id with
  | none =>
      exfalso
      have := List.find?_eq_none.mp hg f hf
      simp at this
  | some g =>
      obtain ⟨hmem, hid⟩ := dbGet_mem hg
      rw [idsOk_inj h g hmem f hf hid]

lemma foldl_patch_eq (newId : Nat) (efs : List Fact) (s : FactTable) :
    efs.foldl
      (fun acc ef => if ef.supersededBy = none then patchSupersededBy acc ef.id newId else acc) s
    = s.map (fun f =>
        if efs.any (fun ef => decide (ef.id = f.id ∧ ef.supersededBy = none)) then
          { f with supersededBy := some newId } else f) := by
  induction efs generalizing s with
  | nil => simp
  | cons ef efs ih =>
      rw [List.foldl_cons]
      by_cases hef : ef.supersededBy = none
      · rw [if_pos hef, ih, patchSupersededBy, List.map_map]
        apply List.map_congr_left
        intro f _
        simp only [Function.comp_apply]
        by_cases hid : f.id = ef.id
        · rw [if_pos hid]
          have hhead : (ef :: efs).any
              (fun ef' => decide (ef'.id = f.id ∧ ef'.supersededBy = none)) = true := by
            simp [List.any_cons, hid.symm, hef]
          rw [hhead, if_pos rfl]
          split <;> rfl
        · rw [if_neg hid]
          have hfalse : decide (ef.id = f.id ∧ ef.supersededBy = none) = false := by
            simp only [decide_eq_false_iff_not]
            rintro ⟨h1, _⟩
            exact hid h1.symm
          rw [List.any_cons, hfalse, Bool.false_or]
      · rw [if_neg hef, ih]
        apply List.map_congr_left
        intro f _
        have hfalse : decide (ef.id = f.id ∧ ef.supersededBy = none) = false := by
          simp only [decide_eq_false_iff_not]
          rintro ⟨_, h2⟩
          exact hef h2
        rw [List.any_cons, hfalse, Bool.false_or]

lemma store_snd (s : FactTable) (args : StoreArgs) (now : Nat) :
    (store s args now).2 = s.length := rfl

lemma store_fst {s : FactTable} (h : idsOk s) (args : StoreArgs) (now : Nat) :
    (store s args now).1
    = s.map (fun f => if f.key = args.key ∧ f.supersededBy = none
          then { f with supersededBy := some s.length } else f)
      ++ [⟨s.length, args.key, args.value, args.category, args.blockId,
           args.turnId, args.evidenceSnippet, none, now⟩] := by
  unfold store dbInsert factsWithKey
  simp only [foldl_patch_eq, List.map_append]
  congr 1
  · apply List.map_congr_left
    intro f hf
    have hany : ((s.filter (fun x => decide (x.key = args.key))).any
        (fun ef => decide (ef.id = f.id ∧ ef.supersededBy = none)))
        = decide (f.key = args.key ∧ f.supersededBy = none) := by
      by_cases hc : f.key = args.key ∧ f.supersededBy = none
      · rw [decide_eq_true hc]
        exact List.any_eq_true.mpr
          ⟨f, List.mem_filter.mpr ⟨hf, by simp [hc.1]⟩, by simp [hc.2]⟩
      · rw [decide_eq_false hc]
        rw [List.any_eq_false]
        intro ef hefmem
        obtain ⟨hefs, hefkey⟩ := List.mem_filter.mp hefmem
        simp only [decide_eq_true_eq] at hefkey
        simp only [decide_eq_true_eq, not_and]
        intro hefid hefsup
        have : ef = f := idsOk_inj h ef hefs f hf hefid
        subst this
        exact hc ⟨hefkey, hefsup⟩
    rw [hany]
    by_cases hc : f.key = args.key ∧ f.supersededBy = none
    · rw [decide_eq_true hc, if_pos rfl, if_pos hc]
    · rw [decide_eq_false hc, if_neg (by simp), if_neg hc]
  · simp only [List.map_cons, List.map_nil]
    congr 1
    have hfalse : ((s.filter (fun x => decide (x.key = args.key))).any
        (fun ef => decide (ef.id = s.length ∧ ef.supersededBy = none))) = false := by
      rw [List.any_eq_false]
      intro ef hefmem
      simp only [decide_eq_true_eq, not_and]
      intro hefid
      exact absurd hefid
        (Nat.ne_of_lt (mem_id_lt h (List.mem_filter.mp hefmem).1))
    rw [hfalse, if_neg (by simp)]

end FactStore

namespace FactStore

lemma filter_map_invariant {p : Fact → Bool} {g : Fact → Fact} {s : List Fact}
    (hg : ∀ f ∈ s, p (g f) = p f ∧ (p f = true → g f = f)) :
    (s.map g).filter p = s.filter p := by
  induction s with
  | nil => rfl
  | cons a t ih =>
      simp only [List.map_cons, List.filter_cons]
      obtain ⟨h1, h2⟩ := hg a (List.mem_cons_self a t)
      rw [h1]
      have ht := ih (fun f hf => hg f (List.mem_cons_of_mem _ hf))
      cases hp : p a with
      | false => simpa [hp] using ht
      | true => simp [hp, h2 hp, ht]

lemma liveForKey_filter (s : FactTable) (k : String) :
    liveForKey s k = s.filter (fun f => decide (f.supersededBy = none ∧ f.key = k)) := rfl

lemma liveForKey_store_self {s : FactTable} (h : idsOk s) (args : StoreArgs) (now : Nat) :
    liveForKey (store s args now).1 args.key
    = [⟨s.length, args.key, args.value, args.category, args.blockId,
        args.turnId, args.evidenceSnippet, none, now⟩] := by
  rw [liveForKey_filter, store_fst h, List.filter_append]
  have h1 : (s.map (fun f => if f.key = args.key ∧ f.supersededBy = none
      then { f with supersededBy := some s.length } else f)).filter
      (fun f => decide (f.supersededBy = none ∧ f.key = args.key)) = [] := by
    rw [List.filter_eq_nil_iff]
    intro f hf
    obtain ⟨x, hx, hfx⟩ := List.mem_map.mp hf
    subst hfx
    by_cases hc : x.key = args.key ∧ x.supersededBy = none
    · rw [if_pos hc]
      simp
    · rw [if_neg hc]
      simp only [decide_eq_true_eq, not_and]
      intro hsup hkey
      exact hc ⟨hkey, hsup⟩
  rw [h1, List.nil_append]
  simp

lemma liveForKey_store_other {s : FactTable} (h : idsOk s) (args : StoreArgs) (now : Nat)
    {k : String} (hk : k ≠ args.key) :
    liveForKey (store s args now).1 k = liveForKey s k := by
  rw [liveForKey_filter, store_fst h, List.filter_append]
  have h2 : List.filter (fun f => decide (f.supersededBy = none ∧ f.key = k))
      [(⟨s.length, args.key, args.value, args.category, args.blockId,
        args.turnId, args.evidenceSnippet, none, now⟩ : Fact)] = [] := by
    simp [Ne.symm hk]
  rw [h2, List.append_nil, liveForKey_filter]
  apply filter_map_invariant
  intro f _
  constructor
  · by_cases hc : f.key = args.key ∧ f.supersededBy = none
    · rw [if_pos hc]
      have : ¬ (f.key = k) := fun hkk => hk (hkk.symm.trans hc.1)
      simp [this]
    · rw [if_neg hc]
  · intro hp
    simp only [decide_eq_true_eq] at hp
    have : ¬ (f.key = args.key ∧ f.supersededBy = none) := by
      rintro ⟨h1, _⟩
      exact hk (hp.2.symm.trans h1)
    rw [if_neg this]

lemma idsOk_nil : idsOk [] := rfl

lemma idsOk_append_one {s : FactTable} (h : idsOk s) {f : Fact} (hf : f.id = s.length) :
    idsOk (s ++ [f]) := by
  unfold idsOk at *
  rw [List.map_append, List.length_append, List.map_singleton, hf, h]
  simp [List.range_succ]

lemma idsOk_map {s : FactTable} (h : idsOk s) {g : Fact → Fact}
    (hg : ∀ f, (g f).id = f.id) : idsOk (s.map g) := by
  unfold idsOk at *
  rw [List.map_map, List.length_map]
  rw [show (Fact.id ∘ g) = Fact.id from funext hg]
  exact h

lemma idsOk_store {s : FactTable} (h : idsOk s) (args : StoreArgs) (now : Nat) :
    idsOk (store s args now).1 := by
  rw [store_fst h]
  apply idsOk_append_one
  · apply idsOk_map h
    intro f
    by_cases hc : f.key = args.key ∧ f.supersededBy = none
    · rw [if_pos hc]
    · rw [if_neg hc]
  · simp

lemma idsOk_storeBatch {s : FactTable} (h : idsOk s) (facts : List StoreArgs) (now : Nat) :
    idsOk (storeBatch s facts now) := by
  unfold storeBatch
  induction facts generalizing s with
  | nil => exact h
  | cons a t ih => exact ih (idsOk_store h a now)

lemma remove_eq_none {s : FactTable} {factId : Nat} (h : dbGet s factId = none) (now : Nat) :
    remove s factId now = s := by
  unfold remove
  rw [h]

lemma remove_eq_some {s : FactTable} {factId : Nat} {fact : Fact}
    (h : dbGet s factId = some fact) (now : Nat) :
    remove s factId now
    = (s ++ [(⟨s.length, fact.key, "[DELETED]", fact.category, fact.blockId,
         none, some "Fact was explicitly deleted", none, now⟩ : Fact)]).map
        (fun f => if f.id = factId then { f with supersededBy := some s.length } else f) := by
  unfold remove dbInsert patchSupersededBy
  rw [h]

lemma idsOk_remove {s : FactTable} (h : idsOk s) (factId : Nat) (now : Nat) :
    idsOk (remove s factId now) := by
  cases hg : dbGet s factId with
  | none => rw [remove_eq_none hg]; exact h
  | some fact =>
      rw [remove_eq_some hg]
      have hlt : factId < s.length := by
        obtain ⟨hmem, hid⟩ := dbGet_mem hg
        exact hid ▸ mem_id_lt h hmem
      apply idsOk_map (idsOk_append_one h rfl)
      intro f
      by_cases hc : f.id = factId
      · rw [if_pos hc]
      · rw [if_neg hc]

lemma idsOk_applyOp {s : FactTable} (h : idsOk s) (op : Op) : idsOk (applyOp s op) := by
  cases op with
  | store args now => exact idsOk_store h args now
  | storeBatch facts now => exact idsOk_storeBatch h facts now
  | remove factId now => exact idsOk_remove h factId now

end FactStore

namespace FactStore

lemma live_le_one_store {s : FactTable} (h : idsOk s)
    (hinv : ∀ k, (liveForKey s k).length ≤ 1) (args : StoreArgs) (now : Nat) :
    ∀ k, (liveForKey (store s args now).1 k).length ≤ 1 := by
  intro k
  by_cases hk : k = args.key
  · subst hk
    rw [liveForKey_store_self h]
    simp
  · rw [liveForKey_store_other h args now hk]
    exact hinv k

lemma live_le_one_storeBatch {s : FactTable} (h : idsOk s)
    (hinv : ∀ k, (liveForKey s k).length ≤ 1) (facts : List StoreArgs) (now : Nat) :
    ∀ k, (liveForKey (storeBatch s facts now) k).length ≤ 1 := by
  unfold storeBatch
  induction facts generalizing s with
  | nil => exact hinv
  | cons a t ih =>
      exact ih (idsOk_store h a now) (live_le_one_store h hinv a now)

lemma live_le_one_remove {s : FactTable} (h : idsOk s)
    (hinv : ∀ k, (liveForKey s k).length ≤ 1) (factId : Nat) (now : Nat)
    (hvalid : (dbGet s factId).all (fun f => f.supersededBy = none) = true) :
    ∀ k, (liveForKey (remove s factId now) k).length ≤ 1 := by
  intro k
  cases hg : dbGet s factId with
  | none => rw [remove_eq_none hg]; exact hinv k
  | some fact =>
      have hlive : fact.supersededBy = none := by
        rw [hg] at hvalid
        simpa using hvalid
      obtain ⟨hmem, hid⟩ := dbGet_mem hg
      rw [remove_eq_some hg, liveForKey_filter, List.map_append, List.filter_append]
      have hnew : ∀ l : List Fact, l.length ≤ 1 →
          (l.filter (fun f => decide (f.supersededBy = none ∧ f.key = k))).length ≤ 1 :=
        fun l hl => le_trans (List.length_filter_le _ l) hl
      by_cases hk : k = fact.key
      · subst hk
        have hsmap : List.filter (fun f => decide (f.supersededBy = none ∧ f.key = fact.key))
            (List.map (fun f => if f.id = factId
              then { f with supersededBy := some s.length } else f) s) = [] := by
          rw [List.filter_eq_nil_iff]
          intro x hx
          obtain ⟨y, hy, hxy⟩ := List.mem_map.mp hx
          subst hxy
          by_cases hyid : y.id = factId
          · rw [if_pos hyid]
            simp
          · rw [if_neg hyid]
            simp only [decide_eq_true_eq, not_and]
            intro hsup hkey
            have hymem : y ∈ liveForKey s fact.key :=
              List.mem_filter.mpr ⟨hy, by simp [hsup, hkey]⟩
            have hfmem : fact ∈ liveForKey s fact.key :=
              List.mem_filter.mpr ⟨hmem, by simp [hlive]⟩
            have : y = fact := mem_eq_of_length_le_one (hinv fact.key) hymem hfmem
            subst this
            exact hyid hid
        rw [hsmap, List.nil_append]
        exact hnew _ (by simp)
      · have hsmap : List.filter (fun f => decide (f.supersededBy = none ∧ f.key = k))
            (List.map (fun f => if f.id = factId
              then { f with supersededBy := some s.length } else f) s)
            = liveForKey s k := by
          rw [liveForKey_filter]
          apply filter_map_invariant
          intro f _
          constructor
          · by_cases hc : f.id = factId
            · rw [if_pos hc]
              simp only [decide_eq_true_eq]
              have : f = fact := idsOk_inj h f ‹f ∈ s› fact hmem (hc.trans hid.symm)
              subst this
              have : ¬ (f.key = k) := fun hkk => hk (hkk.symm)
              simp [this]
            · rw [if_neg hc]
          · intro hp
            simp only [decide_eq_true_eq] at hp
            by_cases hc : f.id = factId
            · exfalso
              have : f = fact := idsOk_inj h f ‹f ∈ s› fact hmem (hc.trans hid.symm)
              exact hk ((this ▸ hp.2).symm)
            · rw [if_neg hc]
        have hnewnil : List.filter (fun f => decide (f.supersededBy = none ∧ f.key = k))
            (List.map (fun f => if f.id = factId
              then { f with supersededBy := some s.length } else f)
              [(⟨s.length, fact.key, "[DELETED]", fact.category, fact.blockId,
                 none, some "Fact was explicitly deleted", none, now⟩ : Fact)]) = [] := by
          rw [List.filter_eq_nil_iff]
          intro x hx
          obtain ⟨y, hy, hxy⟩ := List.mem_map.mp hx
          rw [List.mem_singleton] at hy
          subst hy
          subst hxy
          by_cases hc : (s.length : Nat) = factId
          · rw [if_pos hc]
            simp
          · rw [if_neg hc]
            simp only [decide_eq_true_eq, not_and]
            intro _ hkey
            exact absurd hkey.symm hk
        rw [hsmap, hnewnil, List.append_nil]
        exact hinv k

lemma live_nil (k : String) : liveForKey [] k = [] := rfl

lemma runOps_live_aux (ops : List Op) :
    ∀ s : FactTable, idsOk s → (∀ k, (liveForKey s k).length ≤ 1) →
      removesHitLive s ops = true →
      ∀ k, (liveForKey (runOps s ops) k).length ≤ 1 := by
  induction ops with
  | nil => intro s _ hinv _ k; exact hinv k
  | cons op ops ih =>
      intro s hids hinv hr k
      unfold removesHitLive at hr
      rw [Bool.and_eq_true] at hr
      have hstep : ∀ k, (liveForKey (applyOp s op) k).length ≤ 1 := by
        cases op with
        | store args now => exact live_le_one_store hids hinv args now
        | storeBatch facts now => exact live_le_one_storeBatch hids hinv facts now
        | remove factId now => exact live_le_one_remove hids hinv factId now (by simpa using hr.1)
      exact ih (applyOp s op) (idsOk_applyOp hids op) hstep hr.2 k

end FactStore

namespace FactStore

lemma pairwise_id_lt {s : FactTable} (h : idsOk s) :
    s.Pairwise (fun a b => a.id < b.id) := by
  have hr : (s.map Fact.id).Pairwise (· < ·) := by
    rw [h]
    exact List.pairwise_lt_range _
  exact (List.pairwise_map.mp hr)

lemma find?_live_max {l : List Fact}
    (hp : l.Pairwise (fun a b => b.id < a.id)) {f : Fact}
    (h : l.find? (fun x => x.supersededBy = none) = some f) :
    ∀ g ∈ l, g.supersededBy = none → g.id ≤ f.id := by
  induction l with
  | nil => simp at h
  | cons a t ih =>
      rw [List.pairwise_cons] at hp
      by_cases ha : a.supersededBy = none
      · rw [List.find?_cons_of_pos _ (by simpa using ha)] at h
        cases h
        intro g hg _
        rcases List.mem_cons.mp hg with hg | hg
        · rw [hg]
        · exact le_of_lt (hp.1 g hg)
      · rw [List.find?_cons_of_neg _ (by simpa using ha)] at h
        intro g hg hgl
        rcases List.mem_cons.mp hg with hg | hg
        · exact absurd (hg ▸ hgl) ha
        · exact ih hp.2 h g hg hgl

lemma get_spec {s : FactTable} (h : idsOk s) (k : String) :
    (get s k = none → liveForKey s k = [])
    ∧ (∀ f, get s k = some f →
        f ∈ s ∧ f.key = k ∧ f.supersededBy = none
        ∧ ∀ g ∈ s, g.key = k → g.supersededBy = none → g.id ≤ f.id) := by
  have hpairf : (factsWithKey s k).Pairwise (fun a b => a.id < b.id) :=
    (pairwise_id_lt h).sublist (List.filter_sublist s)
  have hrev : ((factsWithKey s k).reverse).Pairwise (fun a b => b.id < a.id) :=
    List.pairwise_reverse.mpr hpairf
  constructor
  · intro hnone
    rw [liveForKey_filter, List.filter_eq_nil_iff]
    intro f hf
    simp only [decide_eq_true_eq, not_and]
    intro hsup hkey
    have hmemf : f ∈ (factsWithKey s k).reverse :=
      List.mem_reverse.mpr (List.mem_filter.mpr ⟨hf, by simp [hkey]⟩)
    have := List.find?_eq_none.mp hnone f hmemf
    simp [hsup] at this
  · intro f hf
    have hlive : f.supersededBy = none := by
      have := List.find?_some hf
      simpa using this
    have hmemf : f ∈ (factsWithKey s k).reverse := List.mem_of_find?_eq_some hf
    have hmem : f ∈ factsWithKey s k := List.mem_reverse.mp hmemf
    obtain ⟨hmems, hkey⟩ := List.mem_filter.mp hmem
    refine ⟨hmems, by simpa using hkey, hlive, ?_⟩
    intro g hg hgk hgl
    exact find?_live_max hrev hf g
      (List.mem_reverse.mpr (List.mem_filter.mpr ⟨hg, by simp [hgk]⟩)) hgl

end FactStore

namespace FactStore

/-- **C1** (amended).  Starting from an empty facts table, after any sequence of
`store`, `storeBatch`, and `remove` operations in which every `remove` targets
a row that is still non-superseded at the time of the call, at most one row per
key has `supersededBy = null`; such a `remove` inserts a `[DELETED]` successor
row and links the target to it.  (As literally stated the claim fails: `remove`
is not idempotent on an already-superseded row — it unconditionally inserts a
further `[DELETED]` successor and re-links the target, which can leave two
non-superseded rows for the key; see `c1_counterexample`.) -/
theorem c1_live_unique (ops : List Op) (h : removesHitLive [] ops = true)
    (k : String) : (liveForKey (runOps [] ops) k).length ≤ 1 :=
  runOps_live_aux ops [] idsOk_nil (fun _ => by simp [liveForKey]) h k

/-- Witness for `c1_live_unique`: a concrete sequence that stores a fact and
then removes it while it is live. -/
theorem c1_live_unique_witness :
    removesHitLive []
      [Op.store ⟨"deadline", "Friday", some "date", 1, none, none⟩ 10,
       Op.remove 0 20] = true
    ∧ (liveForKey (runOps []
        [Op.store ⟨"deadline", "Friday", some "date", 1, none, none⟩ 10,
         Op.remove 0 20]) "deadline").length ≤ 1 :=
  ⟨by decide, c1_live_unique _ (by decide) _⟩

/-- **C1** counterexample to the claim as literally stated: store a fact,
supersede it with a second `store` of the same key, then call `remove` on the
(already superseded) first row.  `remove` inserts another live `[DELETED]` row,
so the key ends with two rows having `supersededBy = null` — the invariant in
the claim fails and the `remove` was not a no-op. -/
theorem c1_counterexample :
    ¬ ((liveForKey (runOps []
        [Op.store ⟨"deadline", "Friday", some "date", 1, none, none⟩ 10,
         Op.store ⟨"deadline", "Monday", some "date", 2, none, none⟩ 20,
         Op.remove 0 30]) "deadline").length ≤ 1) := by decide

end FactStore

namespace FactStore

lemma store_fst_fresh {s : FactTable} (hids : idsOk s) {args : StoreArgs}
    (hfresh : ∀ f ∈ s, f.key ≠ args.key) (now : Nat) :
    (store s args now).1
    = s ++ [⟨s.length, args.key, args.value, args.category, args.blockId,
        args.turnId, args.evidenceSnippet, none, now⟩] := by
  rw [store_fst hids]
  congr 1
  have hpt : ∀ f ∈ s, (if f.key = args.key ∧ f.supersededBy = none
      then { f with supersededBy := some s.length } else f) = f :=
    fun f hf => if_neg (fun hc => hfresh f hf hc.1)
  rw [List.map_congr_left hpt]
  exact List.map_id' s

/-- **C2**.  Starting from a table with well-formed ids and no row for key `k`,
`store(k, v1)` followed by `store(k, v2)` leaves the table so that: `get k`
returns the second fact (value `v2`); the first row's `supersededBy` equals the
second row's id; and exactly one non-superseded row exists for `k`.  In
general (final conjunct) `get` returns the newest (largest-id) fact with
`supersededBy = null` for the key, or `none` when no such row exists. -/
theorem c2_supersession (s : FactTable) (k v1 v2 : String)
    (cat1 cat2 : Option String) (b1 b2 : Nat) (t1 t2 e1 e2 : Option String)
    (n1 n2 : Nat) (hids : idsOk s) (hfresh : ∀ f ∈ s, f.key ≠ k) :
    get (store (store s ⟨k, v1, cat1, b1, t1, e1⟩ n1).1 ⟨k, v2, cat2, b2, t2, e2⟩ n2).1 k
      = some ⟨s.length + 1, k, v2, cat2, b2, t2, e2, none, n2⟩
    ∧ dbGet (store (store s ⟨k, v1, cat1, b1, t1, e1⟩ n1).1 ⟨k, v2, cat2, b2, t2, e2⟩ n2).1
        (store s ⟨k, v1, cat1, b1, t1, e1⟩ n1).2
      = some ⟨s.length, k, v1, cat1, b1, t1, e1, some (s.length + 1), n1⟩
    ∧ (store (store s ⟨k, v1, cat1, b1, t1, e1⟩ n1).1 ⟨k, v2, cat2, b2, t2, e2⟩ n2).2
        = s.length + 1
    ∧ (liveForKey (store (store s ⟨k, v1, cat1, b1, t1, e1⟩ n1).1
        ⟨k, v2, cat2, b2, t2, e2⟩ n2).1 k).length = 1
    ∧ (∀ (s' : FactTable) (k' : String), idsOk s' →
        (get s' k' = none → liveForKey s' k' = [])
        ∧ (∀ f, get s' k' = some f →
            f ∈ s' ∧ f.key = k' ∧ f.supersededBy = none
            ∧ ∀ g ∈ s', g.key = k' → g.supersededBy = none → g.id ≤ f.id)) := by
  have hs1 : (store s ⟨k, v1, cat1, b1, t1, e1⟩ n1).1
      = s ++ [⟨s.length, k, v1, cat1, b1, t1, e1, none, n1⟩] :=
    store_fst_fresh hids hfresh n1
  have hids1 : idsOk (s ++ [(⟨s.length, k, v1, cat1, b1, t1, e1, none, n1⟩ : Fact)]) :=
    idsOk_append_one hids rfl
  have hs2 : (store (store s ⟨k, v1, cat1, b1, t1, e1⟩ n1).1
      ⟨k, v2, cat2, b2, t2, e2⟩ n2).1
      = s ++ [⟨s.length, k, v1, cat1, b1, t1, e1, some (s.length + 1), n1⟩,
              ⟨s.length + 1, k, v2, cat2, b2, t2, e2, none, n2⟩] := by
    rw [hs1, store_fst hids1]
    simp only [List.map_append, List.length_append, List.length_cons, List.length_nil,
      List.map_cons, List.map_nil, Nat.zero_add]
    have hpt : ∀ f ∈ s, (if f.key = k ∧ f.supersededBy = none
        then { f with supersededBy := some (s.length + 1) } else f) = f :=
      fun f hf => if_neg (fun hc => hfresh f hf hc.1)
    rw [List.map_congr_left hpt, List.map_id' s]
    simp
  have hlive2 : liveForKey (store (store s ⟨k, v1, cat1, b1, t1, e1⟩ n1).1
      ⟨k, v2, cat2, b2, t2, e2⟩ n2).1 k
      = [⟨s.length + 1, k, v2, cat2, b2, t2, e2, none, n2⟩] := by
    rw [hs2, liveForKey_filter, List.filter_append]
    have hnil : s.filter (fun f => decide (f.supersededBy = none ∧ f.key = k)) = [] := by
      rw [List.filter_eq_nil_iff]
      intro f hf
      simp [hfresh f hf]
    rw [hnil, List.nil_append]
    simp
  refine ⟨?_, ?_, ?_, ?_, fun s' k' h' => get_spec h' k'⟩
  · rw [hs2]
    unfold get factsWithKey
    rw [List.filter_append]
    have hnil : s.filter (fun f => decide (f.key = k)) = [] := by
      rw [List.filter_eq_nil_iff]
      intro f hf
      simp [hfresh f hf]
    rw [hnil, List.nil_append]
    simp [List.find?]
  · have hmem : (⟨s.length, k, v1, cat1, b1, t1, e1, some (s.length + 1), n1⟩ : Fact)
        ∈ (store (store s ⟨k, v1, cat1, b1, t1, e1⟩ n1).1
            ⟨k, v2, cat2, b2, t2, e2⟩ n2).1 := by
      rw [hs2]
      simp
    have hids2 : idsOk (store (store s ⟨k, v1, cat1, b1, t1, e1⟩ n1).1
        ⟨k, v2, cat2, b2, t2, e2⟩ n2).1 := by
      rw [hs1]
      exact idsOk_store hids1 _ n2
    exact dbGet_eq_some hids2 hmem
  · rw [store_snd, hs1]
    simp
  · rw [hlive2]
    rfl

/-- Witness for `c2_supersession` at the spec's literal scenario 3 inputs. -/
theorem c2_supersession_witness :
    get (store (store [] ⟨"project_alpha_deadline", "Friday", some "date", 1, none, none⟩ 100).1
          ⟨"project_alpha_deadline", "Monday", some "date", 2, none, none⟩ 200).1
        "project_alpha_deadline"
      = some ⟨1, "project_alpha_deadline", "Monday", some "date", 2, none, none, none, 200⟩ := by
  have h := c2_supersession [] "project_alpha_deadline" "Friday" "Monday"
    (some "date") (some "date") 1 2 none none none none 100 200
    idsOk_nil (by simp)
  exact h.1

end FactStore

/-! ### Theorems: Bridge Blocks (C3, C5) -/

namespace Bridge

lemma length_le_one_of_all_eq {l : List Block} (hnd : l.Nodup)
    (h : ∀ a ∈ l, ∀ b ∈ l, a = b) : l.length ≤ 1 := by
  match l, hnd with
  | [], _ => simp
  | [x], _ => simp
  | x :: y :: t, hnd =>
      exfalso
      rw [List.nodup_cons] at hnd
      exact hnd.1 ((h x (by simp) y (by simp)) ▸ List.mem_cons_self y t)

lemma countP_eq_len (p : Block → Bool) (l : List Block) :
    (l.filter p).length = l.countP p :=
  (List.countP_eq_length_filter p l).symm

lemma activeCount_map_le {l : List Block} {g : Block → Block}
    (hg : ∀ b ∈ l, (g b).status = Status.ACTIVE → b.status = Status.ACTIVE) :
    activeCount (l.map g) ≤ activeCount l := by
  unfold activeCount
  rw [countP_eq_len, countP_eq_len, List.countP_map]
  apply List.countP_mono_left
  intro b hb hgb
  simp only [Function.comp_apply, decide_eq_true_eq] at hgb
  simpa using hg b hb hgb

lemma activeCount_create (db : DB) (d t : String) (k : List String)
    (p : Option Nat) (n : Nat) :
    activeCount ((create db d t k p n).1).blocks = 1 := by
  unfold create pauseActiveBlocks activeCount
  simp only
  rw [List.filter_append]
  have h1 : (db.blocks.map (fun b => if b.status = Status.ACTIVE
      then { b with status := Status.PAUSED, updatedAt := n } else b)).filter
      (fun b => decide (b.status = Status.ACTIVE)) = [] := by
    rw [List.filter_eq_nil_iff]
    intro x hx
    obtain ⟨y, hy, hxy⟩ := List.mem_map.mp hx
    subst hxy
    by_cases hys : y.status = Status.ACTIVE
    · rw [if_pos hys]
      simp
    · rw [if_neg hys]
      simpa using hys
  rw [h1]
  simp

lemma countP_id_le_one {l : List Block} (hnd : (l.map Block.id).Nodup) (i : Nat) :
    l.countP (fun b => decide (b.id = i)) ≤ 1 := by
  rw [← countP_eq_len]
  apply length_le_one_of_all_eq ((List.Nodup.of_map _ hnd).filter _)
  intro a ha b hb
  obtain ⟨ha1, ha2⟩ := List.mem_filter.mp ha
  obtain ⟨hb1, hb2⟩ := List.mem_filter.mp hb
  simp only [decide_eq_true_eq] at ha2 hb2
  exact List.inj_on_of_nodup_map hnd ha1 hb1 (ha2.trans hb2.symm)

lemma activeCount_updateStatus_active {db : DB}
    (hids : blockIdsOk db.blocks) (blockId : Nat) (now : Nat) :
    activeCount (updateStatus db blockId Status.ACTIVE now).blocks ≤ 1 := by
  have hblocks : (updateStatus db blockId Status.ACTIVE now).blocks
      = (db.blocks.map (fun b => if b.status = Status.ACTIVE ∧ b.id ≠ blockId
          then { b with status := Status.PAUSED, updatedAt := now } else b)).map
        (fun b => if b.id = blockId
          then { b with status := Status.ACTIVE, updatedAt := now } else b) := rfl
  unfold activeCount
  rw [hblocks, List.map_map]
  rw [countP_eq_len, List.countP_map]
  have heq : ∀ b ∈ db.blocks,
      ((fun b => decide (b.status = Status.ACTIVE)) ∘
        ((fun b => if b.id = blockId
            then { b with status := Status.ACTIVE, updatedAt := now } else b) ∘
         (fun b => if b.status = Status.ACTIVE ∧ b.id ≠ blockId
            then { b with status := Status.PAUSED, updatedAt := now } else b))) b
      = decide (b.id = blockId) := by
    intro b _
    simp only [Function.comp_apply]
    by_cases hid : b.id = blockId
    · have hg1 : (if b.status = Status.ACTIVE ∧ b.id ≠ blockId
          then { b with status := Status.PAUSED, updatedAt := now } else b) = b :=
        if_neg (by rintro ⟨_, hne⟩; exact hne hid)
      simp only [hg1]
      simp [hid]
    · by_cases hact : b.status = Status.ACTIVE
      · have hg1 : (if b.status = Status.ACTIVE ∧ b.id ≠ blockId
            then { b with status := Status.PAUSED, updatedAt := now } else b)
            = { b with status := Status.PAUSED, updatedAt := now } :=
          if_pos ⟨hact, hid⟩
        simp only [hg1]
        simp [hid]
      · have hg1 : (if b.status = Status.ACTIVE ∧ b.id ≠ blockId
            then { b with status := Status.PAUSED, updatedAt := now } else b) = b :=
          if_neg (by rintro ⟨h1, _⟩; exact hact h1)
        simp only [hg1]
        simp [hid, hact]
  rw [List.countP_congr (fun b hb => by rw [heq b hb])]
  have hnd : (db.blocks.map Block.id).Nodup := by
    rw [hids]
    exact List.nodup_range _
  exact countP_id_le_one hnd blockId

lemma activeCount_updateStatus_other {db : DB}
    (hinv : activeCount db.blocks ≤ 1) (blockId : Nat) {st : Status}
    (hst : st ≠ Status.ACTIVE) (now : Nat) :
    activeCount (updateStatus db blockId st now).blocks ≤ 1 := by
  unfold updateStatus
  rw [if_neg hst]
  refine le_trans (activeCount_map_le ?_) hinv
  intro b _ hb
  by_cases hid : b.id = blockId
  · rw [if_pos hid] at hb
    exact absurd hb hst
  · rwa [if_neg hid] at hb

lemma activeCount_pause {db : DB} (hinv : activeCount db.blocks ≤ 1)
    (blockId : Nat) (now : Nat) :
    activeCount (pauseWithSummary db blockId now).blocks ≤ 1 := by
  unfold pauseWithSummary
  cases hg : blockGet db blockId with
  | none => exact hinv
  | some block =>
      simp only
      refine le_trans (activeCount_map_le ?_) hinv
      intro b _ hb
      by_cases hid : b.id = blockId
      · rw [if_pos hid] at hb
        exact absurd hb (by simp)
      · rwa [if_neg hid] at hb

lemma blockIdsOk_map {l : List Block} (h : blockIdsOk l) {g : Block → Block}
    (hg : ∀ b, (g b).id = b.id) : blockIdsOk (l.map g) := by
  unfold blockIdsOk at *
  rw [List.map_map, List.length_map]
  rw [show (Block.id ∘ g) = Block.id from funext hg]
  exact h

lemma blockIdsOk_create {db : DB} (h : blockIdsOk db.blocks)
    (d t : String) (k : List String) (p : Option Nat) (n : Nat) :
    blockIdsOk ((create db d t k p n).1).blocks := by
  unfold create pauseActiveBlocks
  simp only
  have hp : blockIdsOk (db.blocks.map (fun b => if b.status = Status.ACTIVE
      then { b with status := Status.PAUSED, updatedAt := n } else b)) := by
    apply blockIdsOk_map h
    intro b
    by_cases hb : b.status = Status.ACTIVE
    · rw [if_pos hb]
    · rw [if_neg hb]
  unfold blockIdsOk at *
  rw [List.map_append, List.length_append, hp]
  simp [List.range_succ]

lemma blockIdsOk_updateStatus {db : DB} (h : blockIdsOk db.blocks)
    (blockId : Nat) (st : Status) (now : Nat) :
    blockIdsOk (updateStatus db blockId st now).blocks := by
  unfold updateStatus
  simp only
  have h1 : blockIdsOk (if st = Status.ACTIVE then
      db.blocks.map (fun b => if b.status = Status.ACTIVE ∧ b.id ≠ blockId
        then { b with status := Status.PAUSED, updatedAt := now } else b)
      else db.blocks) := by
    by_cases hst : st = Status.ACTIVE
    · rw [if_pos hst]
      apply blockIdsOk_map h
      intro b
      by_cases hb : b.status = Status.ACTIVE ∧ b.id ≠ blockId
      · rw [if_pos hb]
      · rw [if_neg hb]
    · rwa [if_neg hst]
  apply blockIdsOk_map h1
  intro b
  by_cases hb : b.id = blockId
  · rw [if_pos hb]
  · rw [if_neg hb]

lemma blockIdsOk_pause {db : DB} (h : blockIdsOk db.blocks)
    (blockId : Nat) (now : Nat) :
    blockIdsOk (pauseWithSummary db blockId now).blocks := by
  unfold pauseWithSummary
  cases hg : blockGet db blockId with
  | none => exact h
  | some block =>
      simp only
      apply blockIdsOk_map h
      intro b
      by_cases hb : b.id = blockId
      · rw [if_pos hb]
      · rw [if_neg hb]

lemma runBOps_invariant (ops : List BOp) :
    ∀ db : DB, blockIdsOk db.blocks → activeCount db.blocks ≤ 1 →
      blockIdsOk (runBOps db ops).blocks ∧ activeCount (runBOps db ops).blocks ≤ 1 := by
  induction ops with
  | nil => intro db h1 h2; exact ⟨h1, h2⟩
  | cons op ops ih =>
      intro db h1 h2
      have hstep : blockIdsOk (applyBOp db op).blocks
          ∧ activeCount (applyBOp db op).blocks ≤ 1 := by
        cases op with
        | create d t k p n =>
            exact ⟨blockIdsOk_create h1 d t k p n, le_of_eq (activeCount_create db d t k p n)⟩
        | updateStatus b st n =>
            refine ⟨blockIdsOk_updateStatus h1 b st n, ?_⟩
            cases st with
            | ACTIVE => exact activeCount_updateStatus_active h1 b n
            | PAUSED => exact activeCount_updateStatus_other h2 b (by simp) n
            | CLOSED => exact activeCount_updateStatus_other h2 b (by simp) n
        | pauseWithSummary b n =>
            exact ⟨blockIdsOk_pause h1 b n, activeCount_pause h2 b n⟩
      exact ih (applyBOp db op) hstep.1 hstep.2

lemma activeCountForDay_le (blocks : List Block) (d : String) :
    activeCountForDay blocks d ≤ activeCount blocks := by
  unfold activeCountForDay activeCount
  rw [countP_eq_len, countP_eq_len]
  apply List.countP_mono_left
  intro b _ hb
  simp only [decide_eq_true_eq] at hb ⊢
  exact hb.1

/-- **C3**.  Starting from an empty `bridgeBlocks` table (and any fixed `turns`
table), after any sequence of `create`, `updateStatus`, and `pauseWithSummary`
calls, every `dayId` has at most one block with status ACTIVE: `create` flips
every currently ACTIVE block to PAUSED before inserting the new ACTIVE block,
`updateStatus(blockId, ACTIVE)` first flips all other ACTIVE blocks to PAUSED,
and `pauseWithSummary` only sets its target to PAUSED. -/
theorem c3_at_most_one_active (ops : List BOp) (ts : List Turn) (d : String) :
    activeCountForDay (runBOps ⟨[], ts⟩ ops).blocks d ≤ 1 :=
  le_trans (activeCountForDay_le _ _)
    (runBOps_invariant ops ⟨[], ts⟩ rfl (by simp [activeCount])).2

end Bridge

namespace Bridge

lemma setAddAll_append (acc : List String) (xs ys : List String) :
    setAddAll acc (xs ++ ys) = setAddAll (setAddAll acc xs) ys := by
  unfold setAddAll
  exact List.foldl_append _ _ _ _

lemma setAddAll_nodup (xs : List String) :
    ∀ acc : List String, acc.Nodup → (setAddAll acc xs).Nodup := by
  induction xs with
  | nil => intro acc h; exact h
  | cons x xs ih =>
      intro acc h
      unfold setAddAll at *
      rw [List.foldl_cons]
      by_cases hx : x ∈ acc
      · rw [if_pos hx]
        exact ih acc h
      · rw [if_neg hx]
        refine ih _ ?_
        rw [List.nodup_append]
        exact ⟨h, List.nodup_singleton x, by simpa using hx⟩

/-- **C5** counterexample to the claim as stated: `updateMetadata` does NOT
merge — a supplied `keywords` list replaces the stored one outright.  With
stored keywords `["contract"]` and supplied keywords `["law"]`, the claim
predicts the merged deduped set `["contract", "law"]`, but the code stores
`["law"]`. -/
theorem c5_counterexample :
    ((updateMetadata
        ⟨[⟨0, "2025-01-01", "t", ["contract"], none, Status.ACTIVE, none,
           [], [], 0, 0, 0⟩], []⟩
        0 none (some ["law"]) none none 5).blocks.map Block.keywords
      = [["law"]])
    ∧ ¬ ((updateMetadata
        ⟨[⟨0, "2025-01-01", "t", ["contract"], none, Status.ACTIVE, none,
           [], [], 0, 0, 0⟩], []⟩
        0 none (some ["law"]) none none 5).blocks.map Block.keywords
      = [(setAddAll (jsSetOfList ["contract"]) ["law"]).take 20]) := by decide

/-- **C5** (amended).  The merge behaviour the claim describes belongs to
`updateMetadataFromResponse`, not `updateMetadata`: it merges the supplied
`keywords`, `openLoops` and `decisionsMade` into the block's lists as
deduplicated insertion-ordered sets clamped to 20/10/10 elements, and a
non-empty supplied `summary` overwrites the stored one; `updateMetadata`
instead overwrites each supplied field verbatim. -/
theorem c5_metadata_merge (db : DB) (blockId : Nat) (block : Block)
    (hget : blockGet db blockId = some block)
    (kws loops decs : List String) (summ : String) (hsum : summ ≠ "") (now : Nat) :
    (∀ b ∈ (updateMetadataFromResponse db blockId
        ⟨none, none, some kws, some summ, some loops, some decs⟩ now).blocks,
      b.id = blockId →
        b.keywords = (jsSetOfList (block.keywords ++ kws)).take 20
        ∧ b.openLoops = (jsSetOfList (block.openLoops ++ loops)).take 10
        ∧ b.decisionsMade = (jsSetOfList (block.decisionsMade ++ decs)).take 10
        ∧ b.summary = some summ
        ∧ b.keywords.Nodup ∧ b.openLoops.Nodup ∧ b.decisionsMade.Nodup
        ∧ b.keywords.length ≤ 20 ∧ b.openLoops.length ≤ 10
        ∧ b.decisionsMade.length ≤ 10)
    ∧ (∀ kw' : List String,
        ∀ b ∈ (updateMetadata db blockId none (some kw') none none now).blocks,
          b.id = blockId → b.keywords = kw') := by
  constructor
  · intro b hb hbid
    unfold updateMetadataFromResponse at hb
    rw [hget] at hb
    simp only at hb
    obtain ⟨y, hy, hby⟩ := List.mem_map.mp hb
    by_cases hyid : y.id = blockId
    · rw [if_pos hyid] at hby
      subst hby
      have hkw : (jsSetOfList (block.keywords ++ kws)).take 20
          = (setAddAll (jsSetOfList block.keywords) kws).take 20 := by
        unfold jsSetOfList
        rw [setAddAll_append]
      have hol : (jsSetOfList (block.openLoops ++ loops)).take 10
          = (setAddAll (jsSetOfList block.openLoops) loops).take 10 := by
        unfold jsSetOfList
        rw [setAddAll_append]
      have hdm : (jsSetOfList (block.decisionsMade ++ decs)).take 10
          = (setAddAll (jsSetOfList block.decisionsMade) decs).take 10 := by
        unfold jsSetOfList
        rw [setAddAll_append]
      refine ⟨by rw [hkw]; rfl, by rw [hol]; rfl, by rw [hdm]; rfl,
        by simp [hsum], ?_, ?_, ?_, ?_, ?_, ?_⟩
      · exact List.Nodup.sublist (List.take_sublist _ _)
          (setAddAll_nodup kws _ (setAddAll_nodup block.keywords [] List.nodup_nil))
      · exact List.Nodup.sublist (List.take_sublist _ _)
          (setAddAll_nodup loops _ (setAddAll_nodup block.openLoops [] List.nodup_nil))
      · exact List.Nodup.sublist (List.take_sublist _ _)
          (setAddAll_nodup decs _ (setAddAll_nodup block.decisionsMade [] List.nodup_nil))
      · simp
      · simp
      · simp
    · rw [if_neg hyid] at hby
      subst hby
      exact absurd hbid hyid
  · intro kw' b hb hbid
    unfold updateMetadata at hb
    simp only at hb
    obtain ⟨y, hy, hby⟩ := List.mem_map.mp hb
    by_cases hyid : y.id = blockId
    · rw [if_pos hyid] at hby
      subst hby
      rfl
    · rw [if_neg hyid] at hby
      subst hby
      exact absurd hbid hyid

end Bridge

namespace Bridge

/-- Witness for `c5_metadata_merge` at a concrete block and metadata. -/
theorem c5_metadata_merge_witness :
    blockGet ⟨[⟨0, "2025-01-01", "t", ["contract"], none, Status.ACTIVE, none,
        [], [], 0, 0, 0⟩], []⟩ 0
      = some ⟨0, "2025-01-01", "t", ["contract"], none, Status.ACTIVE, none,
        [], [], 0, 0, 0⟩
    ∧ ("Deal closed" ≠ "")
    ∧ ((⟨0, "2025-01-01", "t", ["contract", "law"], some "Deal closed",
          Status.ACTIVE, none, ["loopA"], ["decA"], 0, 0, 7⟩ : Block).keywords
        = (jsSetOfList (["contract"] ++ ["law", "contract"])).take 20) := by
  refine ⟨rfl, by decide, ?_⟩
  have h := (c5_metadata_merge
    ⟨[⟨0, "2025-01-01", "t", ["contract"], none, Status.ACTIVE, none,
        [], [], 0, 0, 0⟩], []⟩ 0
    ⟨0, "2025-01-01", "t", ["contract"], none, Status.ACTIVE, none,
        [], [], 0, 0, 0⟩ rfl
    ["law", "contract"] ["loopA"] ["decA"] "Deal closed" (by decide) 7).1
  exact (h ⟨0, "2025-01-01", "t", ["contract", "law"], some "Deal closed",
      Status.ACTIVE, none, ["loopA"], ["decA"], 0, 0, 7⟩ (by decide) rfl).1

end Bridge

/-! ### Theorems: Eviction (C4) -/

namespace Evict

set_option maxRecDepth 20000

/-- **C4** is false of the code (code bug).  First conjunct: `checkAndEvict`
never modifies the stored turns at all — the handlers only *record* which turn
ids would be evicted (`"For now, we'll just track which would be evicted"`) and
update topic affinity; nothing is deleted.  Second group: a day with 31
one-character turns still has 31 > 30 stored turns after `checkAndEvict`, even
though `spaceEvicted = 1` is reported.  Third group: a day with 30 turns of
668 characters each keeps a token sum of 5010 > 5000 after `checkAndEvict`,
and the space pass does not even report an eviction (`spaceEvicted = 0`),
because `evictBySpaceInternal` only looks at the turn-count excess and ignores
the `MAX_TIER2_TOKENS` bound. -/
theorem c4_eviction_no_convergence :
    (∀ (db : EDB) (d : String) (now : Int), (checkAndEvict db d now).1.turns = db.turns)
    ∧ (dayTurnCount (checkAndEvict ⟨[⟨0, "d", "topic"⟩],
          (List.range 31).map (fun i => ⟨i, 0, "t" ++ toString i, "x", "", (i : Int)⟩),
          []⟩ "d" 1000).1 "d" = 31
        ∧ ¬ (dayTurnCount (checkAndEvict ⟨[⟨0, "d", "topic"⟩],
          (List.range 31).map (fun i => ⟨i, 0, "t" ++ toString i, "x", "", (i : Int)⟩),
          []⟩ "d" 1000).1 "d" ≤ maxTier2Turns)
        ∧ (checkAndEvict ⟨[⟨0, "d", "topic"⟩],
          (List.range 31).map (fun i => ⟨i, 0, "t" ++ toString i, "x", "", (i : Int)⟩),
          []⟩ "d" 1000).2.spaceEvicted = 1)
    ∧ (daySumTokens (checkAndEvict ⟨[⟨0, "d", "topic"⟩],
          (List.range 30).map (fun i =>
            ⟨i, 0, "t" ++ toString i, String.mk (List.replicate 668 ('x' : Char)), "", (i : Int)⟩),
          []⟩ "d" 1000).1 "d" = 5010
        ∧ ¬ (daySumTokens (checkAndEvict ⟨[⟨0, "d", "topic"⟩],
          (List.range 30).map (fun i =>
            ⟨i, 0, "t" ++ toString i, String.mk (List.replicate 668 ('x' : Char)), "", (i : Int)⟩),
          []⟩ "d" 1000).1 "d" ≤ maxTier2Tokens)
        ∧ (checkAndEvict ⟨[⟨0, "d", "topic"⟩],
          (List.range 30).map (fun i =>
            ⟨i, 0, "t" ++ toString i, String.mk (List.replicate 668 ('x' : Char)), "", (i : Int)⟩),
          []⟩ "d" 1000).2.spaceEvicted = 0) :=
  ⟨fun _ _ _ => rfl, by decide, by decide⟩

end Evict

/-! ### Theorems: Hydrator (C8) -/

namespace Hydrator

/-- **C8**.  For every `B`, `S`, `T`: `allocateTokenBudget(B, S, T)` returns
`system = S`, `tasks = T`, `bridgeBlock = ⌊0.50·(B−S−T)⌋`,
`memories = ⌊0.30·(B−S−T)⌋`, `facts = ⌊0.10·(B−S−T)⌋`,
`profile = ⌊0.10·(B−S−T)⌋`, and `total` equal to the sum of the six; and in
particular `allocateTokenBudget(4000, 500, 500)` is
`system=500, tasks=500, bridgeBlock=1500, memories=900, facts=300,
profile=300, total=4000`. -/
theorem c8_token_budget (B S T : ℚ) :
    (allocateTokenBudget B S T).system = S
    ∧ (allocateTokenBudget B S T).tasks = T
    ∧ (allocateTokenBudget B S T).bridgeBlock = (⌊(B - S - T) * (0.50 : ℚ)⌋ : ℚ)
    ∧ (allocateTokenBudget B S T).memories = (⌊(B - S - T) * (0.30 : ℚ)⌋ : ℚ)
    ∧ (allocateTokenBudget B S T).facts = (⌊(B - S - T) * (0.10 : ℚ)⌋ : ℚ)
    ∧ (allocateTokenBudget B S T).profile = (⌊(B - S - T) * (0.10 : ℚ)⌋ : ℚ)
    ∧ (allocateTokenBudget B S T).total
        = (allocateTokenBudget B S T).system + (allocateTokenBudget B S T).tasks
          + (allocateTokenBudget B S T).bridgeBlock + (allocateTokenBudget B S T).memories
          + (allocateTokenBudget B S T).facts + (allocateTokenBudget B S T).profile
    ∧ allocateTokenBudget 4000 500 500
        = ⟨500, 500, 1500, 900, 300, 300, 4000⟩ :=
  ⟨rfl, rfl, rfl, rfl, rfl, rfl, rfl, by
    unfold allocateTokenBudget jsFloor
    simp only [BudgetAllocation.mk.injEq]
    norm_num⟩

end Hydrator

/-! ### Theorems: Adaptive Compressor (C6, C10) -/

namespace Adaptive

/-- **C6** counterexample to the claim as stated: the hard cap of 15 is NOT
applied in the explicit-reference branch.  With the query `"previously"` and
16 recent queries, `decideCompression` returns `keepVerbatimCount = 16`,
exceeding the cap the claim says always applies. -/
theorem c6_counterexample :
    (decideCompression "previously" (List.replicate 16 "x") 0 0).keepVerbatimCount = 16
    ∧ ¬ ((decideCompression "previously" (List.replicate 16 "x") 0 0).keepVerbatimCount
        ≤ maxVerbatimHardLimit) := by decide

/-- **C6** (amended).  For non-empty `recentQueries`: a query matching an
explicit-reference pattern yields NO_COMPRESSION with
`hasExplicitReference = true` and `keepVerbatimCount = recentQueries.length`
(NOT clamped — the `Math.min(…, 15)` cap applies only to the decision-table
branches); otherwise the result follows the decision table on
(semanticDistance, timeGapHours): distance > 0.8 with gap > 12 h gives
COMPRESS_ALL keeping 5, distance > 0.8 with gap ≤ 12 h gives COMPRESS_PARTIAL
keeping 10, 0.6 < distance ≤ 0.8 with gap > 12 h gives COMPRESS_PARTIAL
keeping 10, and every other case gives NO_COMPRESSION keeping
`min(recentQueries.length, 15)`. -/
theorem c6_decide_compression (q : String) (rs : List String) (ts now : ℚ)
    (hne : rs ≠ []) :
    (detectExplicitReference q = true →
      decideCompression q rs ts now
        = ⟨CompressionLevel.NO_COMPRESSION,
           "Explicit reference to previous conversation detected", 0, 0, true,
           rs.length⟩)
    ∧ (detectExplicitReference q = false →
        (calculateSimpleDistance q (combineRecent rs) > veryDifferentThreshold →
          (now - ts) / (1000 * 60 * 60) > longGapHours →
          decideCompression q rs ts now
            = ⟨CompressionLevel.COMPRESS_ALL, "Very different topic + long time gap",
               calculateSimpleDistance q (combineRecent rs),
               (now - ts) / (1000 * 60 * 60), false, 5⟩)
        ∧ (calculateSimpleDistance q (combineRecent rs) > veryDifferentThreshold →
            ¬ ((now - ts) / (1000 * 60 * 60) > longGapHours) →
            decideCompression q rs ts now
              = ⟨CompressionLevel.COMPRESS_PARTIAL, "Very different topic",
                 calculateSimpleDistance q (combineRecent rs),
                 (now - ts) / (1000 * 60 * 60), false, 10⟩)
        ∧ (¬ (calculateSimpleDistance q (combineRecent rs) > veryDifferentThreshold) →
            calculateSimpleDistance q (combineRecent rs) > somewhatDifferentThreshold →
            (now - ts) / (1000 * 60 * 60) > longGapHours →
            decideCompression q rs ts now
              = ⟨CompressionLevel.COMPRESS_PARTIAL,
                 "Somewhat different topic + long time gap",
                 calculateSimpleDistance q (combineRecent rs),
                 (now - ts) / (1000 * 60 * 60), false, 10⟩)
        ∧ (¬ (calculateSimpleDistance q (combineRecent rs) > veryDifferentThreshold) →
            calculateSimpleDistance q (combineRecent rs) > somewhatDifferentThreshold →
            ¬ ((now - ts) / (1000 * 60 * 60) > longGapHours) →
            decideCompression q rs ts now
              = ⟨CompressionLevel.NO_COMPRESSION, "Similar enough topic and recent",
                 calculateSimpleDistance q (combineRecent rs),
                 (now - ts) / (1000 * 60 * 60), false, min rs.length 15⟩)
        ∧ (¬ (calculateSimpleDistance q (combineRecent rs) > somewhatDifferentThreshold) →
            decideCompression q rs ts now
              = ⟨CompressionLevel.NO_COMPRESSION, "Similar topic",
                 calculateSimpleDistance q (combineRecent rs),
                 (now - ts) / (1000 * 60 * 60), false, min rs.length 15⟩)) := by
  have hlen : ¬ (rs.length = 0) := fun hh => hne (List.length_eq_zero.mp hh)
  constructor
  · intro h
    simp only [decideCompression, h]
    rw [if_neg hlen]
    simp
  · intro h
    have hbase : decideCompression q rs ts now
        = (let semanticDistance := calculateSimpleDistance q (combineRecent rs)
           let timeGapHours := (now - ts) / (1000 * 60 * 60)
           let res : CompressionLevel × String × Nat :=
             if semanticDistance > veryDifferentThreshold then
               if timeGapHours > longGapHours then
                 (CompressionLevel.COMPRESS_ALL, "Very different topic + long time gap",
                  compressAllKeep)
               else
                 (CompressionLevel.COMPRESS_PARTIAL, "Very different topic",
                  compressPartialKeep)
             else if semanticDistance > somewhatDifferentThreshold then
               if timeGapHours > longGapHours then
                 (CompressionLevel.COMPRESS_PARTIAL,
                  "Somewhat different topic + long time gap", compressPartialKeep)
               else
                 (CompressionLevel.NO_COMPRESSION, "Similar enough topic and recent",
                  rs.length)
             else
               (CompressionLevel.NO_COMPRESSION, "Similar topic", rs.length)
           ⟨res.1, res.2.1, semanticDistance, timeGapHours, false,
            min res.2.2 maxVerbatimHardLimit⟩) := by
      simp only [decideCompression, h]
      rw [if_neg hlen]
      simp
    refine ⟨?_, ?_, ?_, ?_, ?_⟩
    · intro hd hg
      rw [hbase]
      simp only [if_pos hd, if_pos hg]
      norm_num [compressAllKeep, maxVerbatimHardLimit]
    · intro hd hg
      rw [hbase]
      simp only [if_pos hd, if_neg hg]
      norm_num [compressPartialKeep, maxVerbatimHardLimit]
    · intro hd hs hg
      rw [hbase]
      simp only [if_neg hd, if_pos hs, if_pos hg]
      norm_num [compressPartialKeep, maxVerbatimHardLimit]
    · intro hd hs hg
      rw [hbase]
      simp only [if_neg hd, if_pos hs, if_neg hg]
      norm_num [maxVerbatimHardLimit]
    · intro hs
      have hd : ¬ (calculateSimpleDistance q (combineRecent rs) > veryDifferentThreshold) := by
        intro hgt
        exact hs (lt_trans (by norm_num [somewhatDifferentThreshold, veryDifferentThreshold]) hgt)
      rw [hbase]
      simp only [if_neg hd, if_neg hs]
      norm_num [maxVerbatimHardLimit]

/-- Witness for `c6_decide_compression` at the spec's scenario 5 inputs. -/
theorem c6_decide_compression_witness :
    ((["Contract terms outlined"] : List String) ≠ [])
    ∧ detectExplicitReference "As we discussed, what were the contract terms?" = true
    ∧ decideCompression "As we discussed, what were the contract terms?"
        ["Contract terms outlined"] 0 300000
      = ⟨CompressionLevel.NO_COMPRESSION,
         "Explicit reference to previous conversation detected", 0, 0, true, 1⟩ :=
  ⟨by decide, by decide,
   (c6_decide_compression "As we discussed, what were the contract terms?"
     ["Contract terms outlined"] 0 300000 (by decide)).1 (by decide)⟩

/-- **C10**.  `cosineSimilarity` is total and never divides by zero: it
returns 0 when the vectors differ in length or either has zero squared norm;
otherwise it returns the dot product over the product of the norms
(`Math.sqrt` modelled as any function positive on positive inputs), whose
divisor is nonzero. -/
theorem c10_cosine_total (sqrt : ℚ → ℚ) (hsqrt : ∀ x : ℚ, 0 < x → 0 < sqrt x)
    (v1 v2 : List ℚ) :
    (v1.length ≠ v2.length → cosineSimilarity sqrt v1 v2 = 0)
    ∧ (v1.length = v2.length →
        ((v1.map (fun x => x * x)).sum = 0 ∨ (v2.map (fun x => x * x)).sum = 0) →
        cosineSimilarity sqrt v1 v2 = 0)
    ∧ (v1.length = v2.length →
        (v1.map (fun x => x * x)).sum ≠ 0 →
        (v2.map (fun x => x * x)).sum ≠ 0 →
        sqrt ((v1.map (fun x => x * x)).sum) * sqrt ((v2.map (fun x => x * x)).sum) ≠ 0
        ∧ cosineSimilarity sqrt v1 v2
            = ((v1.zip v2).map (fun p => p.1 * p.2)).sum
              / (sqrt ((v1.map (fun x => x * x)).sum)
                 * sqrt ((v2.map (fun x => x * x)).sum))) := by
  have hnn : ∀ v : List ℚ, 0 ≤ (v.map (fun x => x * x)).sum := by
    intro v
    apply List.sum_nonneg
    intro x hx
    obtain ⟨y, _, hy⟩ := List.mem_map.mp hx
    subst hy
    exact mul_self_nonneg y
  refine ⟨?_, ?_, ?_⟩
  · intro h
    unfold cosineSimilarity
    rw [if_pos h]
  · intro hlen hz
    unfold cosineSimilarity
    rw [if_neg (by simp [hlen]), if_pos hz]
  · intro hlen h1 h2
    have hp1 : 0 < (v1.map (fun x => x * x)).sum := lt_of_le_of_ne (hnn v1) (Ne.symm h1)
    have hp2 : 0 < (v2.map (fun x => x * x)).sum := lt_of_le_of_ne (hnn v2) (Ne.symm h2)
    have hs1 : 0 < sqrt ((v1.map (fun x => x * x)).sum) := hsqrt _ hp1
    have hs2 : 0 < sqrt ((v2.map (fun x => x * x)).sum) := hsqrt _ hp2
    refine ⟨ne_of_gt (mul_pos hs1 hs2), ?_⟩
    unfold cosineSimilarity
    rw [if_neg (by simp [hlen])]
    rw [if_neg (by push_neg; exact ⟨h1, h2⟩)]

/-- Witness for `c10_cosine_total` with the identity as the `sqrt` model and
the spec's scenario-6 vector `[1,0,0,0]` against itself. -/
theorem c10_cosine_total_witness :
    (([(1 : ℚ), 0, 0, 0].map (fun x => x * x)).sum ≠ 0)
    ∧ ((fun x : ℚ => x) (([(1 : ℚ), 0, 0, 0].map (fun x => x * x)).sum)
        * (fun x : ℚ => x) (([(1 : ℚ), 0, 0, 0].map (fun x => x * x)).sum) ≠ 0
       ∧ cosineSimilarity (fun x : ℚ => x) [1, 0, 0, 0] [1, 0, 0, 0]
          = (([(1 : ℚ), 0, 0, 0].zip [1, 0, 0, 0]).map (fun p => p.1 * p.2)).sum
            / ((fun x : ℚ => x) (([(1 : ℚ), 0, 0, 0].map (fun x => x * x)).sum)
               * (fun x : ℚ => x) (([(1 : ℚ), 0, 0, 0].map (fun x => x * x)).sum))) :=
  ⟨by simp,
   (c10_cosine_total (fun x => x) (fun _ h => h) [1, 0, 0, 0] [1, 0, 0, 0]).2.2
     rfl (by simp) (by simp)⟩

end Adaptive

/-! ### Theorems: Tabula Rasa (C7) -/

namespace Tabula

/-- **C7**.  For `checkForShift(query, activeBlockKeywords)` with non-empty
keywords and no explicit shift-phrase match: a continuation-pattern match
yields `isShift = false` with confidence 0.1; otherwise, with
`similarity = |A∩B|/|A∪B|` over the extracted query topics and the lowercased
keywords, the result is a shift with confidence `1 − similarity` exactly when
`1 − similarity > 0.7` (labelled by the first query topic), and otherwise not
a shift with confidence `similarity`.  In particular for keywords
`["contract","law","agreement"]` and query
`"So tell me more about the contract details"` the result is not a shift and
the reason contains `"Continuation"`. -/
theorem c7_check_for_shift (q : String) (kws : List String)
    (hne : kws ≠ []) (hex : detectExplicitShift q = none) :
    (detectContinuation q = true →
      checkForShift q kws = ⟨false, "Continuation phrase detected", none, 1/10⟩)
    ∧ ((detectContinuation q = false →
        (1 - topicSimilarity q kws > shiftThreshold →
          checkForShift q kws
            = ⟨true, "Low topic similarity ("
                 ++ toFixed0 (topicSimilarity q kws * 100) ++ "%)",
               some (firstTopicLabelD q "New Topic"), 1 - topicSimilarity q kws⟩)
        ∧ (¬ (1 - topicSimilarity q kws > shiftThreshold) →
          checkForShift q kws
            = ⟨false, "Topics similar ("
                 ++ toFixed0 (topicSimilarity q kws * 100) ++ "% match)",
               none, topicSimilarity q kws⟩))
      ∧ (checkForShift "So tell me more about the contract details"
           ["contract", "law", "agreement"]
         = ⟨false, "Continuation phrase detected", none, 1/10⟩
        ∧ "Continuation".toList <:+: "Continuation phrase detected".toList)) := by
  have hlen : ¬ (kws.length = 0) := fun hh => hne (List.length_eq_zero.mp hh)
  have hbase : checkForShift q kws
      = (if detectContinuation q then
           (⟨false, "Continuation phrase detected", none, 1/10⟩ : TopicShiftResult)
         else
           if 1 - topicSimilarity q kws > shiftThreshold then
             ⟨true, "Low topic similarity ("
                ++ toFixed0 (topicSimilarity q kws * 100) ++ "%)",
              some (firstTopicLabelD q "New Topic"), 1 - topicSimilarity q kws⟩
           else
             ⟨false, "Topics similar ("
                ++ toFixed0 (topicSimilarity q kws * 100) ++ "% match)",
              none, 1 - (1 - topicSimilarity q kws)⟩) := by
    unfold checkForShift
    rw [if_neg hlen, hex]
  refine ⟨?_, ?_, ?_, ?_⟩
  · intro h
    rw [hbase, if_pos (by rw [h])]
  · intro h
    constructor
    · intro hgt
      rw [hbase, if_neg (by rw [h]; exact Bool.false_ne_true), if_pos hgt]
    · intro hle
      rw [hbase, if_neg (by rw [h]; exact Bool.false_ne_true), if_neg hle]
      have harith : 1 - (1 - topicSimilarity q kws) = topicSimilarity q kws := by ring
      rw [harith]
  · unfold checkForShift
    rw [if_neg (by decide),
      show detectExplicitShift "So tell me more about the contract details" = none
        from by decide,
      if_pos (by decide)]
  · exact ⟨[], " phrase detected".toList, by decide⟩

/-- Witness for `c7_check_for_shift` at the spec's scenario 1 inputs. -/
theorem c7_check_for_shift_witness :
    ((["contract", "law", "agreement"] : List String) ≠ [])
    ∧ detectExplicitShift "So tell me more about the contract details" = none
    ∧ detectContinuation "So tell me more about the contract details" = true
    ∧ checkForShift "So tell me more about the contract details"
        ["contract", "law", "agreement"]
      = ⟨false, "Continuation phrase detected", none, 1/10⟩ :=
  ⟨by decide, by decide, by decide,
   (c7_check_for_shift "So tell me more about the contract details"
     ["contract", "law", "agreement"] (by decide) (by decide)).1 (by decide)⟩

end Tabula

/-! ### Theorems: Chunker round trip (C9) -/

namespace Chunking

lemma splitParaAux_nil (cur : List Char) : splitParaAux cur [] = [cur.reverse] := by
  unfold splitParaAux
  rfl

lemma splitParaAux_cons (cur : List Char) (c : Char) (cs : List Char) :
    splitParaAux cur (c :: cs) =
      if c = '\n' then
        match lastNl (cs.takeWhile isWS) with
        | some j => cur.reverse :: splitParaAux [] (cs.drop (j + 1))
        | none => splitParaAux (c :: cur) cs
      else splitParaAux (c :: cur) cs := by
  conv_lhs => unfold splitParaAux

lemma splitSentAux_nil (cur : List Char) : splitSentAux cur [] = [cur.reverse] := by
  unfold splitSentAux
  rfl

lemma splitSentAux_cons (cur : List Char) (c : Char) (cs : List Char) :
    splitSentAux cur (c :: cs) =
      if isTerm c ∧ cs.takeWhile isWS ≠ [] then
        (c :: cur).reverse :: splitSentAux [] (cs.dropWhile isWS)
      else splitSentAux (c :: cur) cs := by
  conv_lhs => unfold splitSentAux

lemma isSpaceChar_eq_isWS : Tabula.isSpaceChar = isWS := rfl

lemma wsTokens_nil : wsTokens [] = [] := rfl

lemma wsTokensAux_mid {w : Char} (hw : isWS w) (s1 : List Char) :
    ∀ (cur s2 : List Char),
      wsTokensAux cur (s1 ++ w :: s2) = wsTokensAux cur s1 ++ wsTokensAux [] s2 := by
  induction s1 with
  | nil =>
      intro cur s2
      by_cases hc : cur = [] <;> simp [wsTokensAux, hw, hc]
  | cons c t ih =>
      intro cur s2
      by_cases hc : isWS c
      · by_cases hcur : cur = [] <;> simp [wsTokensAux, hc, hcur, ih]
      · simp [wsTokensAux, hc, ih]

lemma wsTokens_mid {w : Char} (hw : isWS w) (s1 s2 : List Char) :
    wsTokens (s1 ++ w :: s2) = wsTokens s1 ++ wsTokens s2 :=
  wsTokensAux_mid hw s1 [] s2

lemma wsTokens_ws_cons {w : Char} (hw : isWS w) (s : List Char) :
    wsTokens (w :: s) = wsTokens s := by
  simp [wsTokens, wsTokensAux, hw]

lemma wsTokens_pre (s : List Char) :
    ∀ pre : List Char, (∀ c ∈ pre, isWS c) → wsTokens (pre ++ s) = wsTokens s := by
  intro pre
  induction pre with
  | nil => intro _; rfl
  | cons w t ih =>
      intro h
      rw [List.cons_append, wsTokens_ws_cons (h w (List.mem_cons_self _ _))]
      exact ih fun c hc => h c (List.mem_cons_of_mem _ hc)

lemma wsTokens_all_ws {l : List Char} (h : ∀ c ∈ l, isWS c) : wsTokens l = [] := by
  have h2 := wsTokens_pre [] l h
  rw [List.append_nil] at h2
  exact h2

lemma wsTokens_ws_suffix {suf : List Char} (h : ∀ c ∈ suf, isWS c) (s : List Char) :
    wsTokens (s ++ suf) = wsTokens s := by
  cases suf with
  | nil => rw [List.append_nil]
  | cons w t =>
      rw [wsTokens_mid (h w (List.mem_cons_self _ _)) s t,
        wsTokens_all_ws fun c hc => h c (List.mem_cons_of_mem _ hc),
        List.append_nil]

lemma wsTokens_dropWhile (s : List Char) :
    wsTokens (s.dropWhile isWS) = wsTokens s := by
  have hsplit : s.takeWhile isWS ++ s.dropWhile isWS = s := List.takeWhile_append_dropWhile _ _
  conv_rhs => rw [← hsplit]
  exact (wsTokens_pre (s.dropWhile isWS) (s.takeWhile isWS)
    fun c hc => List.mem_takeWhile_imp hc).symm

lemma wsTokens_trimChars (s : List Char) :
    wsTokens (Tabula.trimChars s) = wsTokens s := by
  unfold Tabula.trimChars
  rw [isSpaceChar_eq_isWS]
  rw [← wsTokens_dropWhile s]
  have h2 : (s.dropWhile isWS).reverse.takeWhile isWS
      ++ (s.dropWhile isWS).reverse.dropWhile isWS = (s.dropWhile isWS).reverse :=
    List.takeWhile_append_dropWhile _ _
  have h3 : s.dropWhile isWS
      = ((s.dropWhile isWS).reverse.dropWhile isWS).reverse
        ++ ((s.dropWhile isWS).reverse.takeWhile isWS).reverse := by
    conv_lhs => rw [← List.reverse_reverse (s.dropWhile isWS), ← h2]
    rw [List.reverse_append]
  conv_rhs => rw [h3]
  exact (wsTokens_ws_suffix
    (fun c hc => List.mem_takeWhile_imp (List.mem_reverse.mp hc)) _).symm

lemma lastNl_lt_length {l : List Char} : ∀ {j : Nat}, lastNl l = some j → j < l.length := by
  induction l with
  | nil => intro j h; simp [lastNl] at h
  | cons c cs ih =>
      intro j h
      cases hcs : lastNl cs with
      | some k =>
          simp only [lastNl, hcs, Option.some.injEq] at h
          subst h
          simpa using Nat.succ_lt_succ (ih hcs)
      | none =>
          simp only [lastNl, hcs] at h
          by_cases hc : c = '\n'
          · rw [if_pos hc] at h
            simp only [Option.some.injEq] at h
            subst h
            simp
          · rw [if_neg hc] at h
            simp at h

lemma take_all_ws {cs : List Char} {j : Nat} (hj : j + 1 ≤ (cs.takeWhile isWS).length) :
    ∀ c ∈ cs.take (j + 1), isWS c := by
  intro c hc
  have hsplit : cs.takeWhile isWS ++ cs.dropWhile isWS = cs := List.takeWhile_append_dropWhile _ _
  have h1 : cs.take (j + 1) = (cs.takeWhile isWS).take (j + 1) := by
    conv_lhs => rw [← hsplit]
    rw [List.take_append_eq_append_take, Nat.sub_eq_zero_of_le hj, List.take_zero,
      List.append_nil]
  rw [h1] at hc
  exact List.mem_takeWhile_imp (List.mem_of_mem_take hc)

lemma splitParaAux_tokens : ∀ (n : Nat) (s cur : List Char), s.length ≤ n →
    ((splitParaAux cur s).map wsTokens).flatten = wsTokens (cur.reverse ++ s) := by
  intro n
  induction n with
  | zero =>
      intro s cur hs
      have hs0 : s = [] := List.length_eq_zero.mp (Nat.le_zero.mp hs)
      subst hs0
      rw [splitParaAux_nil, List.append_nil]
      simp
  | succ n ih =>
      intro s cur hs
      cases s with
      | nil =>
          rw [splitParaAux_nil, List.append_nil]
          simp
      | cons c cs =>
          have hs2 : cs.length ≤ n := Nat.le_of_succ_le_succ hs
          by_cases hc : c = '\n'
          · cases hnl : lastNl (cs.takeWhile isWS) with
            | some j =>
                simp only [splitParaAux_cons, if_pos hc, hnl, List.map_cons, List.flatten_cons]
                have hrec := ih (cs.drop (j + 1)) []
                  (le_trans (by rw [List.length_drop]; exact Nat.sub_le _ _) hs2)
                simp only [List.reverse_nil, List.nil_append] at hrec
                rw [hrec]
                have hwnl : isWS '\n' := by decide
                subst hc
                rw [wsTokens_mid hwnl cur.reverse cs]
                have hj1 : j + 1 ≤ (cs.takeWhile isWS).length := lastNl_lt_length hnl
                have hcs : wsTokens cs = wsTokens (cs.drop (j + 1)) := by
                  conv_lhs => rw [← List.take_append_drop (j + 1) cs]
                  exact wsTokens_pre (cs.drop (j + 1)) (cs.take (j + 1)) (take_all_ws hj1)
                rw [hcs]
            | none =>
                simp only [splitParaAux_cons, if_pos hc, hnl]
                rw [ih cs (c :: cur) hs2, List.reverse_cons, List.append_assoc,
                  List.singleton_append]
          · simp only [splitParaAux_cons, if_neg hc]
            rw [ih cs (c :: cur) hs2, List.reverse_cons, List.append_assoc,
              List.singleton_append]

lemma splitSentAux_tokens : ∀ (n : Nat) (s cur : List Char), s.length ≤ n →
    ((splitSentAux cur s).map wsTokens).flatten = wsTokens (cur.reverse ++ s) := by
  intro n
  induction n with
  | zero =>
      intro s cur hs
      have hs0 : s = [] := List.length_eq_zero.mp (Nat.le_zero.mp hs)
      subst hs0
      rw [splitSentAux_nil, List.append_nil]
      simp
  | succ n ih =>
      intro s cur hs
      cases s with
      | nil =>
          rw [splitSentAux_nil, List.append_nil]
          simp
      | cons c cs =>
          have hs2 : cs.length ≤ n := Nat.le_of_succ_le_succ hs
          by_cases hcond : isTerm c ∧ cs.takeWhile isWS ≠ []
          · simp only [splitSentAux_cons, if_pos hcond, List.map_cons, List.flatten_cons]
            have hrec := ih (cs.dropWhile isWS) []
              (le_trans (List.dropWhile_sublist _).length_le hs2)
            simp only [List.reverse_nil, List.nil_append] at hrec
            rw [hrec]
            obtain ⟨htc, htw⟩ := hcond
            cases htwc : cs.takeWhile isWS with
            | nil => exact absurd htwc htw
            | cons w t =>
                have hsplit : cs.takeWhile isWS ++ cs.dropWhile isWS = cs :=
                  List.takeWhile_append_dropWhile _ _
                have hw : isWS w := List.mem_takeWhile_imp
                  (by rw [htwc]; exact List.mem_cons_self _ _)
                have ht : ∀ x ∈ t, isWS x := fun x hx => List.mem_takeWhile_imp
                  (by rw [htwc]; exact List.mem_cons_of_mem _ hx)
                have hcs2 : cs = w :: (t ++ cs.dropWhile isWS) := by
                  conv_lhs => rw [← hsplit, htwc]
                  rw [List.cons_append]
                conv_rhs => rw [hcs2]
                have hsh : cur.reverse ++ c :: w :: (t ++ cs.dropWhile isWS)
                    = (cur.reverse ++ [c]) ++ w :: (t ++ cs.dropWhile isWS) := by
                  simp
                rw [hsh, wsTokens_mid hw, wsTokens_pre _ t ht, List.reverse_cons]
          · simp only [splitSentAux_cons, if_neg hcond]
            rw [ih cs (c :: cur) hs2, List.reverse_cons, List.append_assoc,
              List.singleton_append]

lemma join_map_filter_ne_nil (l : List (List Char)) :
    ((l.filter fun p => p ≠ []).map wsTokens).flatten = (l.map wsTokens).flatten := by
  induction l with
  | nil => rfl
  | cons p ps ih =>
      rw [List.filter_cons]
      by_cases hp : p = []
      · rw [if_neg (by simp [hp]), ih, List.map_cons, List.flatten_cons, hp, wsTokens_nil,
          List.nil_append]
      · rw [if_pos (by simp [hp])]
        simp only [List.map_cons, List.flatten_cons]
        rw [ih]

lemma join_map_trim (l : List (List Char)) :
    ((l.map Tabula.trimChars).map wsTokens).flatten = (l.map wsTokens).flatten := by
  rw [List.map_map]
  have h : wsTokens ∘ Tabula.trimChars = wsTokens := funext wsTokens_trimChars
  rw [h]

lemma splitIntoParagraphs_tokens (s : List Char) :
    ((splitIntoParagraphs s).map wsTokens).flatten = wsTokens s := by
  have hraw := splitParaAux_tokens s.length s [] le_rfl
  simp only [List.reverse_nil, List.nil_append] at hraw
  have hdef : splitIntoParagraphs s =
      if ((splitParaAux [] s).map Tabula.trimChars).filter (fun p => p ≠ []) = []
          ∧ Tabula.trimChars s ≠ [] then [Tabula.trimChars s]
      else ((splitParaAux [] s).map Tabula.trimChars).filter (fun p => p ≠ []) := rfl
  rw [hdef]
  by_cases hcond : ((splitParaAux [] s).map Tabula.trimChars).filter (fun p => p ≠ []) = []
      ∧ Tabula.trimChars s ≠ []
  · rw [if_pos hcond]
    simp only [List.map_cons, List.map_nil, List.flatten_cons, List.flatten_nil, List.append_nil]
    rw [wsTokens_trimChars]
  · rw [if_neg hcond, join_map_filter_ne_nil, join_map_trim, hraw]

lemma splitIntoSentences_tokens (p : List Char) :
    ((splitIntoSentences p).map wsTokens).flatten = wsTokens p := by
  have hraw := splitSentAux_tokens p.length p [] le_rfl
  simp only [List.reverse_nil, List.nil_append] at hraw
  unfold splitIntoSentences
  rw [join_map_filter_ne_nil, join_map_trim, hraw]

lemma wsTokens_joinSep (sep : List Char) (hne : sep ≠ []) (hws : ∀ c ∈ sep, isWS c) :
    ∀ ps : List (List Char), wsTokens (joinSep sep ps) = (ps.map wsTokens).flatten
  | [] => rfl
  | [p] => by simp [joinSep]
  | p :: q :: ps => by
      cases hsep : sep with
      | nil => exact absurd hsep hne
      | cons w t =>
          subst hsep
          have hw : isWS w := hws w (List.mem_cons_self _ _)
          have ht : ∀ c ∈ t, isWS c := fun c hc => hws c (List.mem_cons_of_mem _ hc)
          show wsTokens (p ++ (w :: t) ++ joinSep (w :: t) (q :: ps))
            = ((p :: q :: ps).map wsTokens).flatten
          have hsh : p ++ (w :: t) ++ joinSep (w :: t) (q :: ps)
              = p ++ w :: (t ++ joinSep (w :: t) (q :: ps)) := by
            simp
          rw [hsh, wsTokens_mid hw, wsTokens_pre _ t ht,
            wsTokens_joinSep (w :: t) hne hws (q :: ps)]
          simp

lemma chunkPara_cons (turnId : String) (ts : Nat) (nonce : ChunkType → Nat → String)
    (p : List Char) (ps : List (List Char)) (pIndex sIndex : Nat) :
    chunkPara turnId ts nonce (p :: ps) pIndex sIndex =
      ⟨generateChunkId ChunkType.paragraph pIndex ts (nonce ChunkType.paragraph pIndex),
       ChunkType.paragraph, String.mk p, extractKeywords (String.mk p), none, turnId,
       estimateTokenCount (String.mk p)⟩
      :: (sentenceChunks turnId
            (generateChunkId ChunkType.paragraph pIndex ts (nonce ChunkType.paragraph pIndex))
            ts nonce (splitIntoSentences p) sIndex
          ++ chunkPara turnId ts nonce ps (pIndex + 1)
              (sIndex + (splitIntoSentences p).length)) := rfl

lemma sentenceChunks_cons (turnId pid : String) (ts : Nat)
    (nonce : ChunkType → Nat → String) (st : List Char) (sts : List (List Char))
    (sIndex : Nat) :
    sentenceChunks turnId pid ts nonce (st :: sts) sIndex =
      ⟨generateChunkId ChunkType.sentence sIndex ts (nonce ChunkType.sentence sIndex),
       ChunkType.sentence, String.mk st, extractKeywords (String.mk st), some pid, turnId,
       estimateTokenCount (String.mk st)⟩
      :: sentenceChunks turnId pid ts nonce sts (sIndex + 1) := rfl

lemma sentenceChunks_para_filter (turnId pid : String) (ts : Nat)
    (nonce : ChunkType → Nat → String) :
    ∀ (sts : List (List Char)) (sIndex : Nat),
      (sentenceChunks turnId pid ts nonce sts sIndex).filter
        (fun ch => ch.chunkType = ChunkType.paragraph) = []
  | [], _ => rfl
  | st :: sts, sIndex => by
      rw [sentenceChunks_cons]
      simp [List.filter_cons, sentenceChunks_para_filter turnId pid ts nonce sts (sIndex + 1)]

lemma sentenceChunks_texts (turnId pid : String) (ts : Nat)
    (nonce : ChunkType → Nat → String) :
    ∀ (sts : List (List Char)) (sIndex : Nat),
      ((sentenceChunks turnId pid ts nonce sts sIndex).filter
          (fun ch => ch.chunkType = ChunkType.sentence)).map (fun ch => ch.textVerbatim)
        = sts.map String.mk
  | [], _ => rfl
  | st :: sts, sIndex => by
      rw [sentenceChunks_cons]
      simp [List.filter_cons, sentenceChunks_texts turnId pid ts nonce sts (sIndex + 1)]

lemma chunkPara_para_texts (turnId : String) (ts : Nat)
    (nonce : ChunkType → Nat → String) :
    ∀ (ps : List (List Char)) (pIndex sIndex : Nat),
      ((chunkPara turnId ts nonce ps pIndex sIndex).filter
          (fun ch => ch.chunkType = ChunkType.paragraph)).map (fun ch => ch.textVerbatim)
        = ps.map String.mk
  | [], _, _ => rfl
  | p :: ps, pIndex, sIndex => by
      rw [chunkPara_cons]
      simp [List.filter_cons, List.filter_append, List.map_append,
        sentenceChunks_para_filter,
        chunkPara_para_texts turnId ts nonce ps (pIndex + 1)
          (sIndex + (splitIntoSentences p).length)]

lemma chunkPara_sent_texts (turnId : String) (ts : Nat)
    (nonce : ChunkType → Nat → String) :
    ∀ (ps : List (List Char)) (pIndex sIndex : Nat),
      ((chunkPara turnId ts nonce ps pIndex sIndex).filter
          (fun ch => ch.chunkType = ChunkType.sentence)).map (fun ch => ch.textVerbatim)
        = (ps.map fun p => (splitIntoSentences p).map String.mk).flatten
  | [], _, _ => rfl
  | p :: ps, pIndex, sIndex => by
      rw [chunkPara_cons]
      simp [List.filter_cons, List.filter_append, List.map_append, List.flatten_cons,
        sentenceChunks_texts,
        chunkPara_sent_texts turnId ts nonce ps (pIndex + 1)
          (sIndex + (splitIntoSentences p).length)]

/-- **C9** (corrected): the chunker round trip holds up to whitespace
normalisation, not merely trailing whitespace.  The paragraph chunks emitted by
`chunkText` are exactly `splitIntoParagraphs text` in order and the sentence
chunks are exactly the sentence splits of those paragraphs in order; joining
the paragraphs with a blank-line separator reproduces the input up to
whitespace normalisation (equal `wsTokens`), and joining any paragraph's
sentence splits with spaces reproduces that paragraph up to whitespace
normalisation. -/
theorem c9_chunker_roundtrip (text turnId : String) (ts : Nat)
    (nonce : ChunkType → Nat → String) :
    (((chunkText text turnId ts nonce).filter
        (fun ch => ch.chunkType = ChunkType.paragraph)).map (fun ch => ch.textVerbatim)
      = (splitIntoParagraphs text.toList).map String.mk)
    ∧ (((chunkText text turnId ts nonce).filter
        (fun ch => ch.chunkType = ChunkType.sentence)).map (fun ch => ch.textVerbatim)
      = ((splitIntoParagraphs text.toList).map
          fun p => (splitIntoSentences p).map String.mk).flatten)
    ∧ wsTokens (joinSep blankSep (splitIntoParagraphs text.toList)) = wsTokens text.toList
    ∧ ∀ p : List Char,
        wsTokens (joinSep [' '] (splitIntoSentences p)) = wsTokens p := by
  refine ⟨?_, ?_, ?_, ?_⟩
  · exact chunkPara_para_texts turnId ts nonce (splitIntoParagraphs text.toList) 0 0
  · exact chunkPara_sent_texts turnId ts nonce (splitIntoParagraphs text.toList) 0 0
  · rw [wsTokens_joinSep blankSep (by decide) (by decide) (splitIntoParagraphs text.toList)]
    exact splitIntoParagraphs_tokens text.toList
  · intro p
    rw [wsTokens_joinSep [' '] (by decide) (by decide) (splitIntoSentences p)]
    exact splitIntoSentences_tokens p

/-- **C9 counterexample**: the claim's literal paragraph round trip "up to
trailing whitespace" fails, because `splitIntoParagraphs` also trims leading
whitespace from each paragraph: for the input `" a"` the only paragraph chunk
is `"a"`, so the blank-line join differs from the input even after stripping
trailing whitespace. -/
theorem c9_counterexample :
    rstrip (joinSep blankSep
        ((((chunkText " a" "turn" 0 fun _ _ => "n").filter
              (fun ch => ch.chunkType = ChunkType.paragraph)).map
            (fun ch => ch.textVerbatim)).map String.toList))
      ≠ rstrip " a".toList := by
  have hps : splitIntoParagraphs (" a".toList) = [['a']] := by
    rw [show (" a".toList) = [' ', 'a'] from rfl]
    unfold splitIntoParagraphs
    rw [show splitParaAux [] [' ', 'a'] = [[' ', 'a']] from by
      rw [splitParaAux_cons, if_neg (by decide), splitParaAux_cons, if_neg (by decide),
        splitParaAux_nil]
      rfl]
    decide
  have h := chunkPara_para_texts "turn" 0 (fun _ _ => "n")
    (splitIntoParagraphs (" a".toList)) 0 0
  rw [show chunkText " a" "turn" 0 (fun _ _ => "n")
      = chunkPara "turn" 0 (fun _ _ => "n") (splitIntoParagraphs (" a".toList)) 0 0 from rfl,
    h, hps]
  decide

end Chunking
